import Mathlib

/-! Verification development for the DAG-scheduling simulator.  The first part
embeds the worker-pool/commitment state machine of
`gym_dagsched/envs/worker_assignment_state.py`; later parts embed the
commitment-round logic of `gym_dagsched/envs/dagsched_env.py`, its reward
calculation and its reset loop, and prove the specification claims. -/

/-- Pool keys of the worker assignment state machine.  In the Python source a
pool key is either `None` (the null pool), the tuple `(None, None)` (the
general pool), `(job_id, None)` (a job pool) or `(job_id, op_id)` (an
operation pool); this type enumerates exactly the keys the code constructs. -/
inductive PoolKey where
  | null : PoolKey
  | general : PoolKey
  | jobPool (jobId : Nat) : PoolKey
  | opPool (jobId : Nat) (opId : Nat) : PoolKey
deriving DecidableEq, Repr

/-- First component of a pool-key tuple (`pool_key[0]` in the source): the job
id the pool belongs to, if any.  The general pool is the tuple `(None, None)`,
so its first component is `None`. -/
def PoolKey.jobId : PoolKey → Option Nat
  | .null => none
  | .general => none
  | .jobPool j => some j
  | .opPool j _ => some j

/-- The update `_commitments[src][dst] += n` with its `except` fallback
`_commitments[src][dst] = n` (`_increment_commitments`): an existing entry is
updated in place, a new destination is appended at the end, matching the
insertion-order semantics of a Python dict. -/
def bumpCommit : List (PoolKey × Int) → PoolKey → Int → List (PoolKey × Int)
  | [], dst, n => [(dst, n)]
  | (k, c) :: t, dst, n =>
      if k = dst then (k, c + n) :: t else (k, c) :: bumpCommit t dst n

/-- The update `_commitments[src][dst] -= 1` followed by popping the entry when
its count reaches zero (`_decrement_commitments`). -/
def decCommit : List (PoolKey × Int) → PoolKey → List (PoolKey × Int)
  | [], _ => []
  | (k, c) :: t, dst =>
      if k = dst then (if c - 1 = 0 then t else (k, c - 1) :: t)
      else (k, c) :: decCommit t dst

/-- Lookup of `_commitments[src][dst]`; `none` models a `KeyError`. -/
def lookupCommit : List (PoolKey × Int) → PoolKey → Option Int
  | [], _ => none
  | (k, c) :: t, dst => if k = dst then some c else lookupCommit t dst

/-- State of `WorkerAssignmentState`.  Python dicts keyed by pool keys are
modelled as total functions together with the finite set of registered keys
(`pool_keys` for `_pools`, `op_keys` for the per-operation counters); the
counters are `Int` because Python integers may go negative before the
assertions fire. -/
structure WorkerAssignmentState where
  worker_locations : Nat → Option PoolKey
  pool_keys : Finset PoolKey
  pools : PoolKey → Finset Nat
  commitments : PoolKey → List (PoolKey × Int)
  num_commitments_from : PoolKey → Int
  op_keys : Finset PoolKey
  num_commitments_to_op : PoolKey → Int
  num_moving_to_op : PoolKey → Int
  total_worker_count : Nat → Int
  curr_source : PoolKey

/-- The `reset(num_workers)` method: every worker starts in the general pool,
the null and general pools are registered with no commitments, and the initial
worker source is the general pool. -/
def WorkerAssignmentState.reset (numWorkers : Nat) : WorkerAssignmentState where
  worker_locations := fun w => if w < numWorkers then some .general else none
  pool_keys := {PoolKey.null, PoolKey.general}
  pools := fun k => if k = .general then Finset.range numWorkers else ∅
  commitments := fun _ => []
  num_commitments_from := fun _ => 0
  op_keys := ∅
  num_commitments_to_op := fun _ => 0
  num_moving_to_op := fun _ => 0
  total_worker_count := fun _ => 0
  curr_source := .general

/-- The `add_job(job_id)` method: registers the job pool with an empty member
set, no commitments and a zero total worker count. -/
def WorkerAssignmentState.add_job (s : WorkerAssignmentState) (j : Nat) :
    WorkerAssignmentState :=
  { s with
    pool_keys := insert (PoolKey.jobPool j) s.pool_keys
    pools := Function.update s.pools (PoolKey.jobPool j) ∅
    commitments := Function.update s.commitments (PoolKey.jobPool j) []
    num_commitments_from := Function.update s.num_commitments_from (PoolKey.jobPool j) 0
    total_worker_count := Function.update s.total_worker_count j 0 }

/-- The `add_op(job_id, op_id)` method: registers the operation pool with an
empty member set and zeroed commitment/moving counters. -/
def WorkerAssignmentState.add_op (s : WorkerAssignmentState) (j o : Nat) :
    WorkerAssignmentState :=
  { s with
    pool_keys := insert (PoolKey.opPool j o) s.pool_keys
    pools := Function.update s.pools (PoolKey.opPool j o) ∅
    commitments := Function.update s.commitments (PoolKey.opPool j o) []
    num_commitments_from := Function.update s.num_commitments_from (PoolKey.opPool j o) 0
    op_keys := insert (PoolKey.opPool j o) s.op_keys
    num_commitments_to_op := Function.update s.num_commitments_to_op (PoolKey.opPool j o) 0
    num_moving_to_op := Function.update s.num_moving_to_op (PoolKey.opPool j o) 0 }

/-- The quantity returned by `num_uncommitted_source_workers`:
`len(self._pools[self._curr_source]) - self._num_commitments_from[self._curr_source]`. -/
def WorkerAssignmentState.num_uncommitted_source_workers
    (s : WorkerAssignmentState) : Int :=
  ((s.pools s.curr_source).card : Int) - s.num_commitments_from s.curr_source

/-- The `all_source_workers_committed` query: the number of uncommitted source
workers equals zero. -/
def WorkerAssignmentState.all_source_workers_committed
    (s : WorkerAssignmentState) : Prop :=
  s.num_uncommitted_source_workers = 0

instance (s : WorkerAssignmentState) :
    Decidable s.all_source_workers_committed := by
  unfold WorkerAssignmentState.all_source_workers_committed
  infer_instance

/-- The pattern `if dst_job_id != src_job_id: self._total_worker_count[dst_job_id] += delta`
shared by `add_commitment` and `remove_commitment`.  A `None` destination job
id would be a `KeyError` in Python; the engine never produces it, and the model
leaves the map unchanged there. -/
def crossJobAdjust (t : Nat → Int) (dstJob srcJob : Option Nat) (delta : Int) :
    Nat → Int :=
  if dstJob ≠ srcJob then
    match dstJob with
    | some dj => Function.update t dj (t dj + delta)
    | none => t
  else t

/-- The `add_commitment(num_workers, dst_pool_key)` method:
`_increment_commitments` bumps the per-destination entry, the total outgoing
count of the current source and the incoming count of the destination
operation, and then the destination job's total worker count is adjusted when
the commitment crosses jobs. -/
def WorkerAssignmentState.add_commitment (s : WorkerAssignmentState)
    (numWorkers : Int) (dst : PoolKey) : WorkerAssignmentState :=
  { s with
    commitments := Function.update s.commitments s.curr_source
      (bumpCommit (s.commitments s.curr_source) dst numWorkers)
    num_commitments_from := Function.update s.num_commitments_from s.curr_source
      (s.num_commitments_from s.curr_source + numWorkers)
    num_commitments_to_op := Function.update s.num_commitments_to_op dst
      (s.num_commitments_to_op dst + numWorkers)
    total_worker_count :=
      crossJobAdjust s.total_worker_count dst.jobId s.curr_source.jobId numWorkers }

/-- The assertion `assert supply >= demand` at the end of
`_increment_commitments`, evaluated on the state after the increment:
the current source pool holds at least as many workers as it has outgoing
commitments. -/
def WorkerAssignmentState.supply_ge_demand (s : WorkerAssignmentState) : Prop :=
  s.num_commitments_from s.curr_source ≤ ((s.pools s.curr_source).card : Int)

instance (s : WorkerAssignmentState) : Decidable s.supply_ge_demand := by
  unfold WorkerAssignmentState.supply_ge_demand
  infer_instance

/-- The `_decrement_commitments(src_pool_key, dst_pool_key)` method. -/
def WorkerAssignmentState.decrement_commitments (s : WorkerAssignmentState)
    (src dst : PoolKey) : WorkerAssignmentState :=
  { s with
    commitments := Function.update s.commitments src (decCommit (s.commitments src) dst)
    num_commitments_from := Function.update s.num_commitments_from src
      (s.num_commitments_from src - 1)
    num_commitments_to_op := Function.update s.num_commitments_to_op dst
      (s.num_commitments_to_op dst - 1) }

/-- The `remove_commitment(worker_id, dst_pool_key)` method: looks up the
worker's current pool, reverses one unit of commitment from it to `dst`, and
adjusts the destination job's total worker count on a cross-job commitment. -/
def WorkerAssignmentState.remove_commitment (s : WorkerAssignmentState)
    (w : Nat) (dst : PoolKey) : WorkerAssignmentState :=
  match s.worker_locations w with
  | none => s
  | some src =>
      { s.decrement_commitments src dst with
        total_worker_count :=
          crossJobAdjust s.total_worker_count dst.jobId src.jobId (-1) }

/-- The `peek_commitment(pool_key)` method: the first destination in insertion
order, or `none` when the pool has no outgoing commitments (the bare `except`
also turns a missing pool key into `None`, which the total-function model
represents by the default empty list). -/
def WorkerAssignmentState.peek_commitment (s : WorkerAssignmentState)
    (k : PoolKey) : Option PoolKey :=
  match s.commitments k with
  | [] => none
  | (d, _) :: _ => some d

/-- The `count_worker_arrival(op_pool_key)` method. -/
def WorkerAssignmentState.count_worker_arrival (s : WorkerAssignmentState)
    (k : PoolKey) : WorkerAssignmentState :=
  { s with
    num_moving_to_op := Function.update s.num_moving_to_op k
      (s.num_moving_to_op k - 1) }

/-- The per-job total transfer in the `send` branch of `move_worker_to_pool`:
`self._total_worker_count[new_job_id] += 1` followed by, when the worker left a
job, `self._total_worker_count[old_job_id] -= 1`. -/
def sendTotalAdjust (t : Nat → Int) (newJob oldJob : Option Nat) : Nat → Int :=
  let t1 := match newJob with
    | some nj => Function.update t nj (t nj + 1)
    | none => t
  match oldJob with
  | some oj => Function.update t1 oj (t1 oj - 1)
  | none => t1

/-- The `move_worker_to_pool(worker_id, new_pool_key, send)` method: the worker
is removed from its old pool (if it resides in one); with `send = False` it is
placed into the new pool, with `send = True` it goes into the transient moving
state, the destination's moving counter is bumped and the per-job worker
totals are transferred. -/
def WorkerAssignmentState.move_worker_to_pool (s : WorkerAssignmentState)
    (w : Nat) (newKey : PoolKey) (send : Bool) : WorkerAssignmentState :=
  let s1 := match s.worker_locations w with
    | some old =>
        { s with
          pools := Function.update s.pools old ((s.pools old).erase w)
          worker_locations := Function.update s.worker_locations w none }
    | none => s
  if send = false then
    { s1 with
      worker_locations := Function.update s1.worker_locations w (some newKey)
      pools := Function.update s1.pools newKey (insert w (s1.pools newKey)) }
  else
    { s1 with
      num_moving_to_op := Function.update s1.num_moving_to_op newKey
        (s1.num_moving_to_op newKey + 1)
      total_worker_count := sendTotalAdjust s1.total_worker_count newKey.jobId
        (match s.worker_locations w with | some old => old.jobId | none => none) }

/-- The `update_worker_source(job_id, op_id)` method. -/
def WorkerAssignmentState.update_worker_source (s : WorkerAssignmentState)
    (k : PoolKey) : WorkerAssignmentState :=
  { s with curr_source := k }

/-- The `clear_worker_source` method (the source becomes the null pool,
Python's `None`). -/
def WorkerAssignmentState.clear_worker_source (s : WorkerAssignmentState) :
    WorkerAssignmentState :=
  { s with curr_source := .null }

/-! Conservation sums, the reachability relation generated by the engine's use
of the state machine, and the inductive invariant. -/

/-- Sum of the member-set sizes over all registered pools. -/
def poolSum (s : WorkerAssignmentState) : Int :=
  ∑ k ∈ s.pool_keys, ((s.pools k).card : Int)

/-- Sum of the moving-worker counters over all registered operation pools. -/
def movingSum (s : WorkerAssignmentState) : Int :=
  ∑ k ∈ s.op_keys, s.num_moving_to_op k

/-- States of the worker assignment machine reachable in a non-crashed run of
the engine.  Each constructor corresponds to one way `DagSchedEnv` drives the
state machine; the side conditions are the Python assertions on the path, the
conditions needed to avoid a `KeyError`, and facts the engine guarantees at
the call site (job and operation ids are registered exactly once; moves and
sends act on a worker currently resident in a pool; a worker-arrival event
targets a worker in the moving state; the engine never moves a worker into the
null pool and never selects the null pool as a source). -/
inductive Reach (n : Nat) : WorkerAssignmentState → Prop where
  | reset : Reach n (WorkerAssignmentState.reset n)
  | add_job {s : WorkerAssignmentState} {j : Nat} : Reach n s →
      PoolKey.jobPool j ∉ s.pool_keys → Reach n (s.add_job j)
  | add_op {s : WorkerAssignmentState} {j o : Nat} : Reach n s →
      PoolKey.opPool j o ∉ s.pool_keys → PoolKey.opPool j o ∉ s.op_keys →
      Reach n (s.add_op j o)
  | add_commitment {s : WorkerAssignmentState} {m : Int} {dst : PoolKey} :
      Reach n s → 0 < m → dst ∈ s.op_keys →
      (s.add_commitment m dst).supply_ge_demand →
      Reach n (s.add_commitment m dst)
  | remove_commitment {s : WorkerAssignmentState} {w : Nat} {src dst : PoolKey}
      {c : Int} : Reach n s →
      s.worker_locations w = some src →
      lookupCommit (s.commitments src) dst = some c →
      Reach n (s.remove_commitment w dst)
  | move_resident {s : WorkerAssignmentState} {w : Nat} {old k : PoolKey} :
      Reach n s →
      s.worker_locations w = some old →
      k ∈ s.pool_keys → k ≠ .null →
      Reach n (s.move_worker_to_pool w k false)
  | send_worker {s : WorkerAssignmentState} {w : Nat} {old k : PoolKey} :
      Reach n s →
      s.worker_locations w = some old →
      k ∈ s.op_keys → k.jobId ≠ old.jobId →
      Reach n (s.move_worker_to_pool w k true)
  | worker_arrive {s : WorkerAssignmentState} {w : Nat} {k park : PoolKey} :
      Reach n s →
      s.worker_locations w = none →
      k ∈ s.op_keys → 1 ≤ s.num_moving_to_op k →
      park ∈ s.pool_keys → park ≠ .null →
      Reach n ((s.count_worker_arrival k).move_worker_to_pool w park false)
  | update_worker_source {s : WorkerAssignmentState} {k : PoolKey} :
      Reach n s → k ∈ s.pool_keys → k ≠ .null →
      Reach n (s.update_worker_source k)
  | clear_worker_source {s : WorkerAssignmentState} : Reach n s →
      Reach n s.clear_worker_source

/-- The inductive invariant of the worker assignment machine: the location map
and the pool member sets agree, the null pool is empty, workers are conserved
between pools and moving counters, and every stored commitment entry is
strictly positive with the per-source counter equal to the sum of the stored
entries. -/
structure WAInv (n : Nat) (s : WorkerAssignmentState) : Prop where
  loc_mem : ∀ w k, s.worker_locations w = some k →
    k ∈ s.pool_keys ∧ w ∈ s.pools k
  mem_loc : ∀ k w, w ∈ s.pools k → s.worker_locations w = some k
  null_empty : s.pools .null = ∅
  conservation : poolSum s + movingSum s = n
  commit_pos : ∀ k p, p ∈ s.commitments k → 0 < p.2
  commit_nodup : ∀ k, ((s.commitments k).map Prod.fst).Nodup
  commit_sum : ∀ k, ((s.commitments k).map Prod.snd).sum = s.num_commitments_from k

/-! Embedding of the engine-level state of `DagSchedEnv`
(`gym_dagsched/envs/dagsched_env.py`) that the commitment-round logic reads
and writes.  The `State` wrapper class and the `Job`/`OpNode` classes used by
`dagsched_env.py` are not part of the sources; where their behavior matters it
is modelled from the spec, as noted at each definition. -/

/-- Identity of an operation (stage): the pair `(job_id, op_id)`. -/
abbrev OpId := Nat × Nat

/-- Per-operation task counts, following `Stage` in `entities/stage.py`
(`n_tasks`, `n_completed_tasks`, and the derived processing count), plus the
saturation flag the engine maintains through `job.set_op_saturated`.
Modelled from the spec where the `OpNode` class is missing from the sources:
a stage carries a total task count and a completed count, and
`n_remaining_tasks = n_tasks - n_saturated_tasks` with
`n_saturated_tasks = n_completed_tasks + n_processing_tasks`. -/
structure EnvOp where
  n_tasks : Nat
  n_completed_tasks : Nat
  n_processing_tasks : Nat
  sat_flag : Bool
deriving DecidableEq, Repr

/-- `n_saturated_tasks`: completed plus currently processing tasks. -/
def EnvOp.n_saturated_tasks (p : EnvOp) : Nat :=
  p.n_completed_tasks + p.n_processing_tasks

/-- `n_remaining_tasks = n_tasks - n_saturated_tasks` (Python integers, so the
value may be negative in principle and is an `Int`). -/
def EnvOp.n_remaining_tasks (p : EnvOp) : Int :=
  (p.n_tasks : Int) - p.n_saturated_tasks

/-- `is_complete`: every task of the stage is completed. -/
def EnvOp.completed (p : EnvOp) : Prop := p.n_completed_tasks = p.n_tasks

instance (p : EnvOp) : Decidable p.completed := by
  unfold EnvOp.completed
  infer_instance

/-- The engine state of `DagSchedEnv` used by the commitment-round logic: the
`done` flag, the active job ids, the per-job operation counts (`len(job.ops)`),
the per-operation task counts, the schedulable and selected sets, the frontier
membership of each operation (`op in job.frontier_ops`; the `Job` class is not
in the sources, so frontier membership is a flag modelled from the spec), and
the worker assignment state. -/
structure EnvState where
  done : Bool
  active_job_ids : List Nat
  job_num_ops : Nat → Nat
  ops : OpId → EnvOp
  schedulable_ops : Finset OpId
  selected_ops : Finset OpId
  frontier : OpId → Bool
  wa : WorkerAssignmentState

/-- The pool key of operation `(job_id, op_id)`. -/
def opKeyOf (i : OpId) : PoolKey := PoolKey.opPool i.1 i.2

/-- `get_worker_demand(op)`: remaining tasks minus workers moving to the
operation minus outstanding commitments to it. -/
def EnvState.get_worker_demand (e : EnvState) (i : OpId) : Int :=
  (e.ops i).n_remaining_tasks
    - e.wa.num_moving_to_op (opKeyOf i)
    - e.wa.num_commitments_to_op (opKeyOf i)

/-- `adjust_n_workers(n_workers, op)` before its assertion: the requested
count clamped to the operation's worker demand. -/
def EnvState.adjust_n_workers (e : EnvState) (nw : Int) (i : OpId) : Int :=
  min nw (e.get_worker_demand i)

/-- `is_op_saturated(op)`: the worker demand is non-positive. -/
def EnvState.is_op_saturated (e : EnvState) (i : OpId) : Prop :=
  e.get_worker_demand i ≤ 0

instance (e : EnvState) (i : OpId) : Decidable (e.is_op_saturated i) := by
  unfold EnvState.is_op_saturated
  infer_instance

/-- `_process_op_saturation(op)`: remove the operation from the schedulable
set, set its saturation flag (`job.set_op_saturated(op, True)`), and expand
the frontier (`_expand_frontier`): the newly unlocked operations `newOps` —
the result of `job.find_new_frontier_ops`, whose class is not in the sources
and which the spec describes as idempotent frontier growth — join the
schedulable set and are registered in the worker assignment state. -/
def EnvState.process_op_saturation (e : EnvState) (i : OpId)
    (newOps : List OpId) : EnvState :=
  { e with
    schedulable_ops := (e.schedulable_ops.erase i) ∪ newOps.toFinset
    ops := Function.update e.ops i { e.ops i with sat_flag := true }
    wa := newOps.foldl (fun t p => t.add_op p.1 p.2) e.wa }

/-- The commitment phase of `step` after validation: `state.add_commitment`,
then `_process_op_saturation` when the target became saturated, then marking
the target selected for the round. -/
def EnvState.apply_commitment (e : EnvState) (i : OpId) (nAdj : Int)
    (newOps : List OpId) : EnvState :=
  let e1 := { e with wa := e.wa.add_commitment nAdj (opKeyOf i) }
  if e1.is_op_saturated i then
    let e2 := e1.process_op_saturation i newOps
    { e2 with selected_ops := insert i e2.selected_ops }
  else
    { e1 with selected_ops := insert i e1.selected_ops }

/-- `_is_commitment_round_complete`: all source workers are committed, or no
schedulable operation remains unselected. -/
def EnvState.is_commitment_round_complete (e : EnvState) : Prop :=
  e.wa.all_source_workers_committed ∨ e.schedulable_ops \ e.selected_ops = ∅

instance (e : EnvState) : Decidable e.is_commitment_round_complete := by
  unfold EnvState.is_commitment_round_complete
  infer_instance

/-- Outcome of the validation-and-commitment part of `step(action)`:
`doneEarly` is the immediate `(None, 0, True)` return, `assertionError` is a
failing Python `assert` (carrying the engine state at the moment of failure),
`continueRound` returns control to the caller for another decision in the
same round, and `roundClosed` proceeds to fulfillment. -/
inductive StepOutcome where
  | doneEarly : StepOutcome
  | assertionError (e : EnvState) : StepOutcome
  | continueRound (e : EnvState) : StepOutcome
  | roundClosed (e : EnvState) : StepOutcome

/-- The prelude of `DagSchedEnv.step(action)` up to the decision whether the
commitment round closes: the `done` early return, the assertions (`job_id`
active, `op_id` in range, target schedulable and unselected, adjusted worker
count positive), the commitment application, and the round-completion test.
`newOps` stands for the result of `job.find_new_frontier_ops` used during
saturation processing. -/
def EnvState.stepCheck (e : EnvState) (a : OpId × Int) (newOps : List OpId) :
    StepOutcome :=
  if e.done then StepOutcome.doneEarly
  else if a.1.1 ∉ e.active_job_ids then StepOutcome.assertionError e
  else if ¬ a.1.2 < e.job_num_ops a.1.1 then StepOutcome.assertionError e
  else if a.1 ∉ e.schedulable_ops \ e.selected_ops then StepOutcome.assertionError e
  else if ¬ 0 < e.adjust_n_workers a.2 a.1 then StepOutcome.assertionError e
  else
    let e2 := e.apply_commitment a.1 (e.adjust_n_workers a.2 a.1) newOps
    if e2.is_commitment_round_complete then StepOutcome.roundClosed e2
    else StepOutcome.continueRound e2

/-- The saturation check `if op in self.schedulable_ops and
self.is_op_saturated(op): self._process_op_saturation(op)` performed by
`_work_on_op` and `_send_worker`. -/
def EnvState.saturation_checked (e : EnvState) (i : OpId)
    (newOps : List OpId) : EnvState :=
  if i ∈ e.schedulable_ops ∧ e.is_op_saturated i then
    e.process_op_saturation i newOps
  else e

/-- The re-add branch shared by `_process_worker_arrival` and
`_fulfill_commitment`: after the worker is parked at the job pool, when the
operation is no longer saturated and is not in the schedulable set, its
saturation flag is cleared (`job.set_op_saturated(op, False)`) and it
re-enters the schedulable set. -/
def EnvState.readd_if_needed (e : EnvState) (i : OpId) : EnvState :=
  if ¬ e.is_op_saturated i ∧ i ∉ e.schedulable_ops then
    { e with
      schedulable_ops := insert i e.schedulable_ops
      ops := Function.update e.ops i { e.ops i with sat_flag := false } }
  else e

/-- Engine transitions of `dagsched_env.py` that touch the schedulable set
and the per-operation counters.  Each constructor corresponds to a code path;
the side conditions are the Python assertions on that path and facts the
engine guarantees at the call site (a job arrives once, with fresh
unprocessed source operations; `find_new_frontier_ops` returns operations
that are asserted unsaturated and incomplete and, per the spec's idempotent
frontier growth, not already schedulable; the commitment counters the re-add
guard reads are non-negative, as enforced by the state machine's assertions).
Composite event handlers are decomposed into their sub-operations, which only
enlarges the set of representable traces. -/
inductive SchedStep : EnvState → EnvState → Prop where
  | job_arrival (e : EnvState) (j : Nat) (srcOps : List OpId) :
      (∀ i ∈ srcOps, i.1 = j) →
      (∀ i ∈ srcOps, ¬ (e.ops i).completed ∧ i ∉ e.schedulable_ops) →
      SchedStep e
        { e with
          active_job_ids := e.active_job_ids ++ [j]
          schedulable_ops := e.schedulable_ops ∪ srcOps.toFinset
          frontier := fun p => if p ∈ srcOps then true else e.frontier p
          wa := srcOps.foldl (fun t p => t.add_op p.1 p.2) (e.wa.add_job j) }
  | step_commit (e : EnvState) (i : OpId) (nreq : Int) (newOps : List OpId) :
      e.done = false → i.1 ∈ e.active_job_ids → i.2 < e.job_num_ops i.1 →
      i ∈ e.schedulable_ops \ e.selected_ops →
      0 < e.adjust_n_workers nreq i →
      ((e.wa.add_commitment (e.adjust_n_workers nreq i) (opKeyOf i)).supply_ge_demand) →
      (∀ p ∈ newOps, (e.ops p).sat_flag = false ∧ ¬ (e.ops p).completed ∧
        p ∉ e.schedulable_ops) →
      SchedStep e (e.apply_commitment i (e.adjust_n_workers nreq i) newOps)
  | fulfill_send_cross (e : EnvState) (w : Nat) (i : OpId) (src : PoolKey)
      (newOps : List OpId) :
      0 < (e.ops i).n_remaining_tasks →
      e.wa.worker_locations w = some src →
      (lookupCommit (e.wa.commitments src) (opKeyOf i)).isSome →
      (opKeyOf i).jobId ≠ src.jobId →
      (∀ p ∈ newOps, (e.ops p).sat_flag = false ∧ ¬ (e.ops p).completed ∧
        p ∉ e.schedulable_ops) →
      SchedStep e
        (EnvState.saturation_checked
          { e with
            wa := (e.wa.remove_commitment w (opKeyOf i)).move_worker_to_pool w
              (opKeyOf i) true }
          i newOps)
  | worker_arrival_park (e : EnvState) (w : Nat) (i : OpId) :
      e.frontier i = false →
      e.wa.worker_locations w = none →
      1 ≤ e.wa.num_moving_to_op (opKeyOf i) →
      0 ≤ e.wa.num_commitments_to_op (opKeyOf i) →
      SchedStep e
        (EnvState.readd_if_needed
          { e with
            wa := (e.wa.count_worker_arrival (opKeyOf i)).move_worker_to_pool w
              (PoolKey.jobPool i.1) false }
          i)
  | fulfill_same_job_park (e : EnvState) (w : Nat) (i : OpId) (src : PoolKey) :
      0 < (e.ops i).n_remaining_tasks →
      e.wa.worker_locations w = some src →
      src.jobId = some i.1 →
      (lookupCommit (e.wa.commitments src) (opKeyOf i)).isSome →
      e.frontier i = false →
      0 ≤ e.wa.num_moving_to_op (opKeyOf i) →
      1 ≤ e.wa.num_commitments_to_op (opKeyOf i) →
      SchedStep e
        (EnvState.readd_if_needed
          { e with
            wa := (((e.wa.remove_commitment w (opKeyOf i)).move_worker_to_pool w
              (opKeyOf i) false)).move_worker_to_pool w (PoolKey.jobPool i.1) false }
          i)
  | work_on_op (e : EnvState) (w : Nat) (i : OpId) (newOps : List OpId) :
      0 < (e.ops i).n_remaining_tasks →
      (∀ p ∈ newOps, (e.ops p).sat_flag = false ∧ ¬ (e.ops p).completed ∧
        p ∉ e.schedulable_ops) →
      SchedStep e
        (EnvState.saturation_checked
          { e with
            ops := Function.update e.ops i
              { e.ops i with
                n_processing_tasks := (e.ops i).n_processing_tasks + 1 } }
          i newOps)
  | task_complete_continue (e : EnvState) (w : Nat) (i : OpId)
      (newOps : List OpId) :
      (e.ops i).n_completed_tasks < (e.ops i).n_tasks →
      1 ≤ (e.ops i).n_processing_tasks →
      0 < (e.ops i).n_remaining_tasks →
      (∀ p ∈ newOps, (e.ops p).sat_flag = false ∧ ¬ (e.ops p).completed ∧
        p ∉ e.schedulable_ops) →
      SchedStep e
        (EnvState.saturation_checked
          { e with
            ops := Function.update e.ops i
              { e.ops i with
                n_completed_tasks := (e.ops i).n_completed_tasks + 1 } }
          i newOps)
  | task_complete_finish (e : EnvState) (w : Nat) (i : OpId)
      (newFrontier : OpId → Bool) :
      (e.ops i).n_completed_tasks < (e.ops i).n_tasks →
      1 ≤ (e.ops i).n_processing_tasks →
      (e.ops i).n_remaining_tasks = 0 →
      ((e.ops i).n_completed_tasks + 1 = (e.ops i).n_tasks → i ∉ e.schedulable_ops) →
      SchedStep e
        { e with
          ops := Function.update e.ops i
            { e.ops i with
              n_completed_tasks := (e.ops i).n_completed_tasks + 1
              n_processing_tasks := (e.ops i).n_processing_tasks - 1 }
          frontier := newFrontier }

/-! Reward calculation (`_calculate_reward` and `REWARD_SCALE`).  Times are
Python floats; they are modelled as rationals. -/

/-- Arrival and completion times of a job (`job.t_arrival`,
`job.t_completed`). -/
structure JobTimes where
  t_arrival : Rat
  t_completed : Rat

/-- The constant `REWARD_SCALE = 1e-5`. -/
def REWARD_SCALE : Rat := 1 / 100000

/-- `_calculate_reward(prev_time)`: for every active job subtract
`min(job.t_completed, wall_time) - max(job.t_arrival, prev_time)` from the
accumulator, then scale. -/
def calculate_reward (prev_time wall_time : Rat) (jobs : List JobTimes) : Rat :=
  (jobs.foldl
    (fun r j => r - (min j.t_completed wall_time - max j.t_arrival prev_time))
    0) * REWARD_SCALE

/-- Length of the overlap of the intervals `[a, b]` and `[c, d]`. -/
def intervalOverlap (a b c d : Rat) : Rat := max 0 (min b d - max a c)

/-! The event-draining loop of `reset` (`while self.wall_time == 0: ...`).
The timeline class is not in the sources; modelled from the spec, it is a
priority queue popped in nondecreasing time order, and popping an empty
timeline fails.  Events are abstracted to identifiers, since only which
events get popped and processed matters here. -/

/-- One run of the reset loop starting at wall time `wall` on the (sorted)
remaining timeline: returns the final wall time, the list of processed
events in order, and the remaining timeline — or `none` when the loop pops an
empty timeline. -/
def resetDrain (wall : Rat) :
    List (Rat × Nat) → Option (Rat × List (Rat × Nat) × List (Rat × Nat))
  | [] => if wall = 0 then none else some (wall, [], [])
  | (t, ev) :: rest =>
      if wall = 0 then
        (resetDrain t rest).map fun x => (x.1, (t, ev) :: x.2.1, x.2.2)
      else some (wall, [], (t, ev) :: rest)

/-- The effect of `_process_job_arrival` on the worker assignment state:
`add_job`, `add_op` for each source operation, and — when the general pool
has workers — `update_worker_source()` selecting the general pool. -/
def job_arrival_wa (t : WorkerAssignmentState) (j : Nat)
    (srcOps : List (Nat × Nat)) : WorkerAssignmentState :=
  let t1 := srcOps.foldl (fun u p => u.add_op p.1 p.2) (t.add_job j)
  if (t1.pools PoolKey.general).Nonempty then
    t1.update_worker_source PoolKey.general
  else t1

/-- The worker assignment state after `reset(num_workers)` followed by the
job arrivals processed during the reset loop. -/
def resetArrivalsApply (n : Nat) (arrivals : List (Nat × List (Nat × Nat))) :
    WorkerAssignmentState :=
  arrivals.foldl (fun t a => job_arrival_wa t a.1 a.2)
    (WorkerAssignmentState.reset n)

/-! Concrete states used to instantiate the claim theorems. -/

/-- A reachable worker assignment state over one worker, one job, one
registered operation. -/
def c1WaState : WorkerAssignmentState :=
  ((WorkerAssignmentState.reset 1).add_job 0).add_op 0 0

/-- An engine state over `c1WaState` whose single operation `(0, 0)` has five
remaining tasks and is schedulable and unselected. -/
def c1EnvState : EnvState where
  done := false
  active_job_ids := [0]
  job_num_ops := fun _ => 1
  ops := fun p =>
    if p = ((0, 0) : OpId) then ⟨5, 0, 0, false⟩ else ⟨0, 0, 0, false⟩
  schedulable_ops := {((0, 0) : OpId)}
  selected_ops := ∅
  frontier := fun p => if p = ((0, 0) : OpId) then true else false
  wa := c1WaState

/-- A reachable state over two workers: one worker was sent to operation
`(0, 0)` and has arrived at the job pool of job `0`. -/
def c2WitnessState : WorkerAssignmentState :=
  (((((WorkerAssignmentState.reset 2).add_job 0).add_op 0 0).move_worker_to_pool
    0 (PoolKey.opPool 0 0) true).count_worker_arrival
      (PoolKey.opPool 0 0)).move_worker_to_pool 0 (PoolKey.jobPool 0) false

/-- A reachable state over two workers with a worker moved into a job pool. -/
def c9WitnessState : WorkerAssignmentState :=
  ((WorkerAssignmentState.reset 2).add_job 0).move_worker_to_pool 0
    (PoolKey.jobPool 0) false

/-- A reachable state with one outstanding commitment from the general pool
to operation `(0, 0)`. -/
def c10WitnessState : WorkerAssignmentState :=
  (((WorkerAssignmentState.reset 1).add_job 0).add_op 0 0).add_commitment 1
    (PoolKey.opPool 0 0)

/-! Concrete engine states for the remaining claims. -/

/-- The state after validation and commitment in `step`: the action's target
committed with the adjusted count. -/
def stepPost (e : EnvState) (a : OpId × Int) (newOps : List OpId) : EnvState :=
  e.apply_commitment a.1 (e.adjust_n_workers a.2 a.1) newOps

/-- An engine state whose operation `(0, 0)` exists but is not schedulable. -/
def c4EnvState : EnvState where
  done := false
  active_job_ids := [0]
  job_num_ops := fun _ => 1
  ops := fun p =>
    if p = ((0, 0) : OpId) then ⟨5, 0, 0, false⟩ else ⟨0, 0, 0, false⟩
  schedulable_ops := ∅
  selected_ops := ∅
  frontier := fun _ => false
  wa := ((WorkerAssignmentState.reset 1).add_job 0).add_op 0 0

/-- An engine state whose operation `(0, 0)` is schedulable and unselected,
with three remaining tasks and no moving workers or commitments. -/
def c5EnvState : EnvState where
  done := false
  active_job_ids := [0]
  job_num_ops := fun _ => 1
  ops := fun p =>
    if p = ((0, 0) : OpId) then ⟨3, 0, 0, false⟩ else ⟨0, 0, 0, false⟩
  schedulable_ops := {((0, 0) : OpId)}
  selected_ops := ∅
  frontier := fun p => if p = ((0, 0) : OpId) then true else false
  wa := ((WorkerAssignmentState.reset 1).add_job 0).add_op 0 0

/-- An engine state with one source worker and two schedulable operations of
two tasks each: committing the single worker to one of them commits all
source workers while a schedulable operation remains unselected. -/
def c6EnvState : EnvState where
  done := false
  active_job_ids := [0]
  job_num_ops := fun _ => 2
  ops := fun p =>
    if p = ((0, 0) : OpId) then ⟨2, 0, 0, false⟩
    else if p = ((0, 1) : OpId) then ⟨2, 0, 0, false⟩
    else ⟨0, 0, 0, false⟩
  schedulable_ops := {((0, 0) : OpId), ((0, 1) : OpId)}
  selected_ops := ∅
  frontier := fun p =>
    if p = ((0, 0) : OpId) then true
    else if p = ((0, 1) : OpId) then true else false
  wa := (((WorkerAssignmentState.reset 1).add_job 0).add_op 0 0).add_op 0 1

/-! The trace refuting single-entry of the schedulable set: job 1 arrives with
source operation `(1, 0)` whose saturation unlocks `(1, 1)`; both are
committed one worker each (the second commitment saturates and removes
`(1, 1)`); both workers are dispatched cross-job; when the worker promised to
`(1, 1)` arrives, the operation's demand is positive again, it is not in the
job's frontier, and the engine re-inserts it into the schedulable set. -/

/-- Initial state of the re-entry trace: two workers, no jobs yet. -/
def c3S0 : EnvState where
  done := false
  active_job_ids := []
  job_num_ops := fun _ => 2
  ops := fun p =>
    if p = ((1, 0) : OpId) then ⟨1, 0, 0, false⟩
    else if p = ((1, 1) : OpId) then ⟨1, 0, 0, false⟩
    else ⟨0, 0, 0, true⟩
  schedulable_ops := ∅
  selected_ops := ∅
  frontier := fun _ => false
  wa := WorkerAssignmentState.reset 2

/-- After the arrival of job `1` with source operation `(1, 0)`. -/
def c3S1 : EnvState :=
  { c3S0 with
    active_job_ids := c3S0.active_job_ids ++ [1]
    schedulable_ops := c3S0.schedulable_ops ∪ ([((1, 0) : OpId)]).toFinset
    frontier := fun p => if p ∈ [((1, 0) : OpId)] then true else c3S0.frontier p
    wa := ([((1, 0) : OpId)]).foldl (fun t p => t.add_op p.1 p.2)
      (c3S0.wa.add_job 1) }

/-- After committing one worker to `(1, 0)`: the operation saturates, leaves
the schedulable set and unlocks `(1, 1)`. -/
def c3S2 : EnvState :=
  c3S1.apply_commitment (1, 0) (c3S1.adjust_n_workers 1 (1, 0)) [(1, 1)]

/-- After committing one worker to `(1, 1)`: it saturates and leaves the
schedulable set. -/
def c3S3 : EnvState :=
  c3S2.apply_commitment (1, 1) (c3S2.adjust_n_workers 1 (1, 1)) []

/-- After dispatching worker `0` cross-job to `(1, 0)`. -/
def c3S4 : EnvState :=
  EnvState.saturation_checked
    { c3S3 with
      wa := (c3S3.wa.remove_commitment 0 (opKeyOf (1, 0))).move_worker_to_pool 0
        (opKeyOf (1, 0)) true }
    (1, 0) []

/-- After dispatching worker `1` cross-job to `(1, 1)`. -/
def c3S5 : EnvState :=
  EnvState.saturation_checked
    { c3S4 with
      wa := (c3S4.wa.remove_commitment 1 (opKeyOf (1, 1))).move_worker_to_pool 1
        (opKeyOf (1, 1)) true }
    (1, 1) []

/-- After worker `1` arrives at the saturated-before-arrival operation
`(1, 1)`: the worker is parked at the job pool and the operation re-enters
the schedulable set. -/
def c3S6 : EnvState :=
  EnvState.readd_if_needed
    { c3S5 with
      wa := (c3S5.wa.count_worker_arrival (opKeyOf (1, 1))).move_worker_to_pool 1
        (PoolKey.jobPool 1) false }
    (1, 1)

/-- A state with a completed operation `(0, 0)` outside the schedulable set. -/
def c3W0 : EnvState where
  done := false
  active_job_ids := [0]
  job_num_ops := fun _ => 1
  ops := fun p =>
    if p = ((0, 0) : OpId) then ⟨1, 1, 0, true⟩
    else if p = ((1, 0) : OpId) then ⟨1, 0, 0, false⟩
    else ⟨0, 0, 0, true⟩
  schedulable_ops := ∅
  selected_ops := ∅
  frontier := fun _ => false
  wa := ((WorkerAssignmentState.reset 1).add_job 0).add_op 0 0

/-- The state after a further job arrival on `c3W0`. -/
def c3W1 : EnvState :=
  { c3W0 with
    active_job_ids := c3W0.active_job_ids ++ [1]
    schedulable_ops := c3W0.schedulable_ops ∪ ([((1, 0) : OpId)]).toFinset
    frontier := fun p => if p ∈ [((1, 0) : OpId)] then true else c3W0.frontier p
    wa := ([((1, 0) : OpId)]).foldl (fun t p => t.add_op p.1 p.2)
      (c3W0.wa.add_job 1) }

/-- The schedulable-demand invariant the engine maintains: every operation in
the schedulable set has strictly positive worker demand.  Every site of
`dagsched_env.py` that decreases an operation's demand (`step`, line 135;
`_work_on_op`, line 470; `_send_worker`, line 486) immediately runs the
saturation check and removes the operation from the schedulable set when its
demand has dropped to zero, and the re-add branch only inserts an operation
after testing its demand positive. -/
def schedDemandPos (e : EnvState) : Prop :=
  ∀ p ∈ e.schedulable_ops, 0 < e.get_worker_demand p

instance (e : EnvState) : Decidable (schedDemandPos e) := by
  unfold schedDemandPos
  infer_instance

/-- The engine state after a legal commitment of one worker to `(0, 0)` on
`c5EnvState`. -/
def c5Post : EnvState :=
  c5EnvState.apply_commitment (0, 0) (c5EnvState.adjust_n_workers 1 (0, 0)) []

/-- The active-job list the reward loop sees: `_process_job_completion`
removes a job from `active_job_ids` at the moment its completion event is
processed (`dagsched_env.py:581`), and `_calculate_reward` (line 714) then
iterates only over the remaining `active_job_ids`.  A job whose completion
time does not exceed the drain's final wall time has therefore been dropped
from the list before the reward is computed. -/
def postDrainActive (wall_time : Rat) (jobs : List JobTimes) : List JobTimes :=
  jobs.filter (fun j => decide (wall_time < j.t_completed))

/-! End of state-machine definitions. -/

/-! Helper lemmas about the commitment association lists and about sums over
registered pool keys. -/

theorem bumpCommit_snd_sum (l : List (PoolKey × Int)) (dst : PoolKey) (n : Int) :
    ((bumpCommit l dst n).map Prod.snd).sum = (l.map Prod.snd).sum + n := by
  induction l with
  | nil => simp [bumpCommit]
  | cons p t ih =>
      obtain ⟨k, c⟩ := p
      simp only [bumpCommit]
      by_cases h : k = dst
      · rw [if_pos h]
        simp only [List.map_cons, List.sum_cons]
        ring
      · rw [if_neg h]
        simp only [List.map_cons, List.sum_cons, ih]
        ring

theorem bumpCommit_pos (dst : PoolKey) (n : Int) (hn : 0 < n) :
    ∀ l : List (PoolKey × Int), (∀ p ∈ l, 0 < p.2) →
      ∀ p ∈ bumpCommit l dst n, 0 < p.2 := by
  intro l
  induction l with
  | nil =>
      intro _ p hp
      simp only [bumpCommit, List.mem_singleton] at hp
      rw [hp]
      exact hn
  | cons q t ih =>
      obtain ⟨k, c⟩ := q
      intro hl p hp
      simp only [bumpCommit] at hp
      by_cases h : k = dst
      · rw [if_pos h] at hp
        rcases List.mem_cons.mp hp with hp | hp
        · have hkc : (0:Int) < (k, c).2 := hl (k, c) (List.mem_cons_self _ _)
          have hsnd : ((k, c + n) : PoolKey × Int).2 = c + n := rfl
          have hkc2 : (0:Int) < c := hkc
          rw [hp, hsnd]
          omega
        · exact hl p (List.mem_cons_of_mem _ hp)
      · rw [if_neg h] at hp
        rcases List.mem_cons.mp hp with hp | hp
        · rw [hp]; exact hl (k, c) (List.mem_cons_self _ _)
        · exact ih (fun q hq => hl q (List.mem_cons_of_mem _ hq)) p hp

theorem mem_bumpCommit_fst (dst a : PoolKey) (n : Int) :
    ∀ l : List (PoolKey × Int),
      (a ∈ (bumpCommit l dst n).map Prod.fst ↔ a ∈ l.map Prod.fst ∨ a = dst) := by
  intro l
  induction l with
  | nil => simp [bumpCommit]
  | cons q t ih =>
      obtain ⟨k, c⟩ := q
      simp only [bumpCommit]
      by_cases h : k = dst
      · rw [if_pos h]
        simp only [List.map_cons, List.mem_cons]
        rw [h]
        tauto
      · rw [if_neg h]
        simp only [List.map_cons, List.mem_cons]
        rw [ih]
        tauto

theorem bumpCommit_fst_nodup (dst : PoolKey) (n : Int) :
    ∀ l : List (PoolKey × Int), (l.map Prod.fst).Nodup →
      ((bumpCommit l dst n).map Prod.fst).Nodup := by
  intro l
  induction l with
  | nil => intro _; simp [bumpCommit]
  | cons q t ih =>
      obtain ⟨k, c⟩ := q
      intro hl
      simp only [List.map_cons, List.nodup_cons] at hl
      simp only [bumpCommit]
      by_cases h : k = dst
      · rw [if_pos h]
        simp only [List.map_cons, List.nodup_cons]
        exact hl
      · rw [if_neg h]
        simp only [List.map_cons, List.nodup_cons]
        refine ⟨?_, ih hl.2⟩
        rw [mem_bumpCommit_fst]
        push_neg
        exact ⟨hl.1, h⟩

theorem decCommit_snd_sum (dst : PoolKey) (c : Int) :
    ∀ l : List (PoolKey × Int), lookupCommit l dst = some c →
      ((decCommit l dst).map Prod.snd).sum = (l.map Prod.snd).sum - 1 := by
  intro l
  induction l with
  | nil => intro hc; simp [lookupCommit] at hc
  | cons q t ih =>
      obtain ⟨k, c0⟩ := q
      intro hc
      simp only [lookupCommit] at hc
      simp only [decCommit]
      by_cases h : k = dst
      · rw [if_pos h]
        by_cases hz : c0 - 1 = 0
        · rw [if_pos hz]
          simp only [List.map_cons, List.sum_cons]
          omega
        · rw [if_neg hz]
          simp only [List.map_cons, List.sum_cons]
          omega
      · rw [if_neg h] at hc ⊢
        simp only [List.map_cons, List.sum_cons, ih hc]
        omega

theorem decCommit_pos (dst : PoolKey) :
    ∀ l : List (PoolKey × Int), (∀ p ∈ l, 0 < p.2) →
      ∀ p ∈ decCommit l dst, 0 < p.2 := by
  intro l
  induction l with
  | nil => intro _ p hp; simp [decCommit] at hp
  | cons q t ih =>
      obtain ⟨k, c0⟩ := q
      intro hl p hp
      simp only [decCommit] at hp
      by_cases h : k = dst
      · rw [if_pos h] at hp
        by_cases hz : c0 - 1 = 0
        · rw [if_pos hz] at hp
          exact hl p (List.mem_cons_of_mem _ hp)
        · rw [if_neg hz] at hp
          rcases List.mem_cons.mp hp with hp | hp
          · have hkc : (0:Int) < (k, c0).2 := hl (k, c0) (List.mem_cons_self _ _)
            have hkc2 : (0:Int) < c0 := hkc
            have hsnd : ((k, c0 - 1) : PoolKey × Int).2 = c0 - 1 := rfl
            rw [hp, hsnd]
            omega
          · exact hl p (List.mem_cons_of_mem _ hp)
      · rw [if_neg h] at hp
        rcases List.mem_cons.mp hp with hp | hp
        · rw [hp]; exact hl (k, c0) (List.mem_cons_self _ _)
        · exact ih (fun q hq => hl q (List.mem_cons_of_mem _ hq)) p hp

theorem decCommit_fst_sublist (dst : PoolKey) :
    ∀ l : List (PoolKey × Int),
      ((decCommit l dst).map Prod.fst).Sublist (l.map Prod.fst) := by
  intro l
  induction l with
  | nil =>
      simp only [decCommit, List.map_nil]
      exact List.Sublist.refl _
  | cons q t ih =>
      obtain ⟨k, c0⟩ := q
      simp only [decCommit]
      by_cases h : k = dst
      · rw [if_pos h]
        by_cases hz : c0 - 1 = 0
        · rw [if_pos hz]
          simp only [List.map_cons]
          exact List.sublist_cons_self _ _
        · rw [if_neg hz]
          simp only [List.map_cons]
          exact List.Sublist.cons₂ _ (List.Sublist.refl _)
      · rw [if_neg h]
        simp only [List.map_cons]
        exact List.Sublist.cons₂ _ ih

theorem list_sum_pos_of_pos :
    ∀ l : List Int, (∀ x ∈ l, 0 < x) → l ≠ [] → 0 < l.sum := by
  intro l
  induction l with
  | nil => intro _ hne; simp at hne
  | cons x t ih =>
      intro hl _
      have hx := hl x (List.mem_cons_self _ _)
      by_cases ht : t = []
      · rw [ht]; simpa using hx
      · have := ih (fun y hy => hl y (List.mem_cons_of_mem _ hy)) ht
        simp only [List.sum_cons]
        omega

theorem sum_update_int (K : Finset PoolKey) (g : PoolKey → Int) (a : PoolKey)
    (b : Int) (ha : a ∈ K) :
    (∑ k ∈ K, Function.update g a b k) = (∑ k ∈ K, g k) + b - g a := by
  rw [Finset.sum_update_of_mem ha, ← Finset.erase_eq]
  have h2 := Finset.add_sum_erase K g ha
  omega

theorem sum_update_int_not_mem (K : Finset PoolKey) (g : PoolKey → Int)
    (a : PoolKey) (b : Int) (ha : a ∉ K) :
    (∑ k ∈ K, Function.update g a b k) = ∑ k ∈ K, g k := by
  refine Finset.sum_congr rfl fun k hk => ?_
  exact Function.update_noteq (ne_of_mem_of_not_mem hk ha) _ _

theorem card_comp_update (pools : PoolKey → Finset Nat) (a : PoolKey)
    (B : Finset Nat) :
    (fun k => (((Function.update pools a B) k).card : Int))
      = Function.update (fun k => ((pools k).card : Int)) a ((B.card : Int)) := by
  funext k
  by_cases h : k = a
  · rw [h]; simp
  · simp [Function.update_noteq h]

/-! Component equations for the branching operations, conditional on the
worker's current location. -/

theorem remove_commitment_eq (s : WorkerAssignmentState) (w : Nat)
    (src dst : PoolKey) (hloc : s.worker_locations w = some src) :
    s.remove_commitment w dst =
      { s.decrement_commitments src dst with
        total_worker_count :=
          crossJobAdjust s.total_worker_count dst.jobId src.jobId (-1) } := by
  unfold WorkerAssignmentState.remove_commitment
  rw [hloc]

theorem move_worker_to_pool_false_some (s : WorkerAssignmentState) (w : Nat)
    (old k : PoolKey) (hloc : s.worker_locations w = some old) :
    s.move_worker_to_pool w k false =
      { s with
        worker_locations := Function.update s.worker_locations w (some k)
        pools := Function.update (Function.update s.pools old ((s.pools old).erase w)) k
          (insert w (Function.update s.pools old ((s.pools old).erase w) k)) } := by
  unfold WorkerAssignmentState.move_worker_to_pool
  rw [hloc]
  simp [Function.update_idem]

theorem move_worker_to_pool_false_none (s : WorkerAssignmentState) (w : Nat)
    (k : PoolKey) (hloc : s.worker_locations w = none) :
    s.move_worker_to_pool w k false =
      { s with
        worker_locations := Function.update s.worker_locations w (some k)
        pools := Function.update s.pools k (insert w (s.pools k)) } := by
  unfold WorkerAssignmentState.move_worker_to_pool
  rw [hloc]
  rfl

theorem move_worker_to_pool_true_some (s : WorkerAssignmentState) (w : Nat)
    (old k : PoolKey) (hloc : s.worker_locations w = some old) :
    s.move_worker_to_pool w k true =
      { s with
        worker_locations := Function.update s.worker_locations w none
        pools := Function.update s.pools old ((s.pools old).erase w)
        num_moving_to_op := Function.update s.num_moving_to_op k
          (s.num_moving_to_op k + 1)
        total_worker_count :=
          sendTotalAdjust s.total_worker_count k.jobId old.jobId } := by
  unfold WorkerAssignmentState.move_worker_to_pool
  rw [hloc]
  rfl

theorem inv_reset (n : Nat) : WAInv n (WorkerAssignmentState.reset n) := by
  refine ⟨?_, ?_, ?_, ?_, ?_, ?_, ?_⟩
  · intro w k h
    simp only [WorkerAssignmentState.reset] at h ⊢
    by_cases hw : w < n
    · rw [if_pos hw] at h
      cases h
      exact ⟨by simp, by simp [hw]⟩
    · rw [if_neg hw] at h
      cases h
  · intro k w hw
    simp only [WorkerAssignmentState.reset] at hw ⊢
    by_cases hk : k = PoolKey.general
    · rw [if_pos hk] at hw
      rw [Finset.mem_range] at hw
      rw [if_pos hw, hk]
    · rw [if_neg hk] at hw
      exact absurd hw (Finset.not_mem_empty w)
  · simp [WorkerAssignmentState.reset]
  · unfold poolSum movingSum
    simp only [WorkerAssignmentState.reset]
    rw [show ({PoolKey.null, PoolKey.general} : Finset PoolKey)
        = insert PoolKey.null {PoolKey.general} from rfl]
    rw [Finset.sum_insert (by decide), Finset.sum_singleton]
    simp
  · intro k p hp
    simp only [WorkerAssignmentState.reset] at hp
    exact absurd hp (List.not_mem_nil p)
  · intro k
    simp [WorkerAssignmentState.reset]
  · intro k
    simp [WorkerAssignmentState.reset]

theorem inv_add_job {n : Nat} {s : WorkerAssignmentState} {j : Nat}
    (inv : WAInv n s) (hj : PoolKey.jobPool j ∉ s.pool_keys) :
    WAInv n (s.add_job j) := by
  refine ⟨?_, ?_, ?_, ?_, ?_, ?_, ?_⟩
  · intro w k h
    obtain ⟨hk, hw⟩ := inv.loc_mem w k h
    have hkj : k ≠ PoolKey.jobPool j := fun hkk => hj (hkk ▸ hk)
    exact ⟨Finset.mem_insert_of_mem hk, by
      show w ∈ Function.update s.pools (PoolKey.jobPool j) ∅ k
      rw [Function.update_noteq hkj]
      exact hw⟩
  · intro k w hw
    have hw2 : w ∈ Function.update s.pools (PoolKey.jobPool j) ∅ k := hw
    by_cases hk : k = PoolKey.jobPool j
    · rw [hk, Function.update_same] at hw2
      exact absurd hw2 (Finset.not_mem_empty w)
    · rw [Function.update_noteq hk] at hw2
      exact inv.mem_loc k w hw2
  · show Function.update s.pools (PoolKey.jobPool j) ∅ PoolKey.null = ∅
    rw [Function.update_noteq (by simp)]
    exact inv.null_empty
  · show poolSum (s.add_job j) + movingSum s = n
    have hps : poolSum (s.add_job j) = poolSum s := by
      unfold poolSum
      show (∑ k ∈ insert (PoolKey.jobPool j) s.pool_keys,
        ((Function.update s.pools (PoolKey.jobPool j) ∅ k).card : Int)) = _
      rw [card_comp_update, Finset.sum_insert hj, Function.update_same,
        sum_update_int_not_mem _ _ _ _ hj]
      simp
    rw [hps]
    exact inv.conservation
  · intro k p hp
    have hp2 : p ∈ Function.update s.commitments (PoolKey.jobPool j) [] k := hp
    by_cases hk : k = PoolKey.jobPool j
    · rw [hk, Function.update_same] at hp2
      exact absurd hp2 (List.not_mem_nil p)
    · rw [Function.update_noteq hk] at hp2
      exact inv.commit_pos k p hp2
  · intro k
    show ((Function.update s.commitments (PoolKey.jobPool j) [] k).map Prod.fst).Nodup
    by_cases hk : k = PoolKey.jobPool j
    · rw [hk, Function.update_same]
      simp
    · rw [Function.update_noteq hk]
      exact inv.commit_nodup k
  · intro k
    show ((Function.update s.commitments (PoolKey.jobPool j) [] k).map Prod.snd).sum
      = Function.update s.num_commitments_from (PoolKey.jobPool j) 0 k
    by_cases hk : k = PoolKey.jobPool j
    · rw [hk, Function.update_same, Function.update_same]
      simp
    · rw [Function.update_noteq hk, Function.update_noteq hk]
      exact inv.commit_sum k

theorem inv_add_op {n : Nat} {s : WorkerAssignmentState} {j o : Nat}
    (inv : WAInv n s) (hj : PoolKey.opPool j o ∉ s.pool_keys)
    (ho : PoolKey.opPool j o ∉ s.op_keys) :
    WAInv n (s.add_op j o) := by
  refine ⟨?_, ?_, ?_, ?_, ?_, ?_, ?_⟩
  · intro w k h
    obtain ⟨hk, hw⟩ := inv.loc_mem w k h
    have hkj : k ≠ PoolKey.opPool j o := fun hkk => hj (hkk ▸ hk)
    exact ⟨Finset.mem_insert_of_mem hk, by
      show w ∈ Function.update s.pools (PoolKey.opPool j o) ∅ k
      rw [Function.update_noteq hkj]
      exact hw⟩
  · intro k w hw
    have hw2 : w ∈ Function.update s.pools (PoolKey.opPool j o) ∅ k := hw
    by_cases hk : k = PoolKey.opPool j o
    · rw [hk, Function.update_same] at hw2
      exact absurd hw2 (Finset.not_mem_empty w)
    · rw [Function.update_noteq hk] at hw2
      exact inv.mem_loc k w hw2
  · show Function.update s.pools (PoolKey.opPool j o) ∅ PoolKey.null = ∅
    rw [Function.update_noteq (by simp)]
    exact inv.null_empty
  · have hps : poolSum (s.add_op j o) = poolSum s := by
      unfold poolSum
      show (∑ k ∈ insert (PoolKey.opPool j o) s.pool_keys,
        ((Function.update s.pools (PoolKey.opPool j o) ∅ k).card : Int)) = _
      rw [card_comp_update, Finset.sum_insert hj, Function.update_same,
        sum_update_int_not_mem _ _ _ _ hj]
      simp
    have hms : movingSum (s.add_op j o) = movingSum s := by
      unfold movingSum
      show (∑ k ∈ insert (PoolKey.opPool j o) s.op_keys,
        Function.update s.num_moving_to_op (PoolKey.opPool j o) 0 k) = _
      rw [Finset.sum_insert ho, Function.update_same,
        sum_update_int_not_mem _ _ _ _ ho]
      simp
    show poolSum (s.add_op j o) + movingSum (s.add_op j o) = n
    rw [hps, hms]
    exact inv.conservation
  · intro k p hp
    have hp2 : p ∈ Function.update s.commitments (PoolKey.opPool j o) [] k := hp
    by_cases hk : k = PoolKey.opPool j o
    · rw [hk, Function.update_same] at hp2
      exact absurd hp2 (List.not_mem_nil p)
    · rw [Function.update_noteq hk] at hp2
      exact inv.commit_pos k p hp2
  · intro k
    show ((Function.update s.commitments (PoolKey.opPool j o) [] k).map Prod.fst).Nodup
    by_cases hk : k = PoolKey.opPool j o
    · rw [hk, Function.update_same]
      simp
    · rw [Function.update_noteq hk]
      exact inv.commit_nodup k
  · intro k
    show ((Function.update s.commitments (PoolKey.opPool j o) [] k).map Prod.snd).sum
      = Function.update s.num_commitments_from (PoolKey.opPool j o) 0 k
    by_cases hk : k = PoolKey.opPool j o
    · rw [hk, Function.update_same, Function.update_same]
      simp
    · rw [Function.update_noteq hk, Function.update_noteq hk]
      exact inv.commit_sum k

theorem inv_add_commitment {n : Nat} {s : WorkerAssignmentState} {m : Int}
    {dst : PoolKey} (inv : WAInv n s) (hm : 0 < m) :
    WAInv n (s.add_commitment m dst) := by
  refine ⟨inv.loc_mem, inv.mem_loc, inv.null_empty, inv.conservation, ?_, ?_, ?_⟩
  · intro k p hp
    have hp2 : p ∈ Function.update s.commitments s.curr_source
        (bumpCommit (s.commitments s.curr_source) dst m) k := hp
    by_cases hk : k = s.curr_source
    · rw [hk, Function.update_same] at hp2
      exact bumpCommit_pos dst m hm _ (inv.commit_pos s.curr_source) p hp2
    · rw [Function.update_noteq hk] at hp2
      exact inv.commit_pos k p hp2
  · intro k
    show ((Function.update s.commitments s.curr_source
      (bumpCommit (s.commitments s.curr_source) dst m) k).map Prod.fst).Nodup
    by_cases hk : k = s.curr_source
    · rw [hk, Function.update_same]
      exact bumpCommit_fst_nodup dst m _ (inv.commit_nodup s.curr_source)
    · rw [Function.update_noteq hk]
      exact inv.commit_nodup k
  · intro k
    show ((Function.update s.commitments s.curr_source
        (bumpCommit (s.commitments s.curr_source) dst m) k).map Prod.snd).sum
      = Function.update s.num_commitments_from s.curr_source
        (s.num_commitments_from s.curr_source + m) k
    by_cases hk : k = s.curr_source
    · rw [hk, Function.update_same, Function.update_same, bumpCommit_snd_sum,
        inv.commit_sum s.curr_source]
    · rw [Function.update_noteq hk, Function.update_noteq hk]
      exact inv.commit_sum k

theorem inv_remove_commitment {n : Nat} {s : WorkerAssignmentState} {w : Nat}
    {src dst : PoolKey} {c : Int} (inv : WAInv n s)
    (hloc : s.worker_locations w = some src)
    (hc : lookupCommit (s.commitments src) dst = some c) :
    WAInv n (s.remove_commitment w dst) := by
  rw [remove_commitment_eq s w src dst hloc]
  refine ⟨inv.loc_mem, inv.mem_loc, inv.null_empty, inv.conservation, ?_, ?_, ?_⟩
  · intro k p hp
    have hp2 : p ∈ Function.update s.commitments src
        (decCommit (s.commitments src) dst) k := hp
    by_cases hk : k = src
    · rw [hk, Function.update_same] at hp2
      exact decCommit_pos dst _ (inv.commit_pos src) p hp2
    · rw [Function.update_noteq hk] at hp2
      exact inv.commit_pos k p hp2
  · intro k
    show ((Function.update s.commitments src
      (decCommit (s.commitments src) dst) k).map Prod.fst).Nodup
    by_cases hk : k = src
    · rw [hk, Function.update_same]
      exact (decCommit_fst_sublist dst _).nodup (inv.commit_nodup src)
    · rw [Function.update_noteq hk]
      exact inv.commit_nodup k
  · intro k
    show ((Function.update s.commitments src
        (decCommit (s.commitments src) dst) k).map Prod.snd).sum
      = Function.update s.num_commitments_from src
        (s.num_commitments_from src - 1) k
    by_cases hk : k = src
    · rw [hk, Function.update_same, Function.update_same,
        decCommit_snd_sum dst c _ hc, inv.commit_sum src]
    · rw [Function.update_noteq hk, Function.update_noteq hk]
      exact inv.commit_sum k

theorem inv_move_resident {n : Nat} {s : WorkerAssignmentState} {w : Nat}
    {old k : PoolKey} (inv : WAInv n s)
    (hloc : s.worker_locations w = some old)
    (hk : k ∈ s.pool_keys) (hknull : k ≠ PoolKey.null) :
    WAInv n (s.move_worker_to_pool w k false) := by
  obtain ⟨hold, hwold⟩ := inv.loc_mem w old hloc
  have holdnull : old ≠ PoolKey.null := by
    intro h
    rw [h, inv.null_empty] at hwold
    exact absurd hwold (Finset.not_mem_empty w)
  rw [move_worker_to_pool_false_some s w old k hloc]
  set P1 := Function.update s.pools old ((s.pools old).erase w) with hP1
  have hP1mem : ∀ kk v, v ≠ w → (v ∈ P1 kk ↔ v ∈ s.pools kk) := by
    intro kk v hvw
    by_cases hko : kk = old
    · rw [hko, hP1, Function.update_same]
      simp [Finset.mem_erase, hvw]
    · rw [hP1, Function.update_noteq hko]
  have hP1w : ∀ kk, w ∉ P1 kk := by
    intro kk hmem
    by_cases hko : kk = old
    · rw [hko, hP1, Function.update_same] at hmem
      exact absurd hmem (Finset.not_mem_erase w _)
    · rw [hP1, Function.update_noteq hko] at hmem
      have h2 := inv.mem_loc kk w hmem
      rw [hloc] at h2
      cases h2
      exact hko rfl
  have hchar : ∀ kk v, v ∈ Function.update P1 k (insert w (P1 k)) kk ↔
      ((v = w ∧ kk = k) ∨ (v ≠ w ∧ v ∈ s.pools kk)) := by
    intro kk v
    by_cases hkkk : kk = k
    · rw [hkkk, Function.update_same, Finset.mem_insert]
      constructor
      · intro h
        rcases h with h | h
        · exact Or.inl ⟨h, rfl⟩
        · have hvw : v ≠ w := fun hvw => hP1w k (hvw ▸ h)
          exact Or.inr ⟨hvw, (hP1mem k v hvw).mp h⟩
      · intro h
        rcases h with ⟨h1, _⟩ | ⟨h1, h2⟩
        · exact Or.inl h1
        · exact Or.inr ((hP1mem k v h1).mpr h2)
    · rw [Function.update_noteq hkkk]
      constructor
      · intro h
        have hvw : v ≠ w := fun hvw => hP1w kk (hvw ▸ h)
        exact Or.inr ⟨hvw, (hP1mem kk v hvw).mp h⟩
      · intro h
        rcases h with ⟨_, h2⟩ | ⟨h1, h2⟩
        · exact absurd h2 hkkk
        · exact (hP1mem kk v h1).mpr h2
  refine ⟨?_, ?_, ?_, ?_, inv.commit_pos, inv.commit_nodup, inv.commit_sum⟩
  · intro v kk h
    have h2 : Function.update s.worker_locations w (some k) v = some kk := h
    by_cases hv : v = w
    · rw [hv, Function.update_same] at h2
      cases h2
      exact ⟨hk, (hchar k v).mpr (Or.inl ⟨hv, rfl⟩)⟩
    · rw [Function.update_noteq hv] at h2
      obtain ⟨h3, h4⟩ := inv.loc_mem v kk h2
      exact ⟨h3, (hchar kk v).mpr (Or.inr ⟨hv, h4⟩)⟩
  · intro kk v hv
    rw [hchar kk v] at hv
    show Function.update s.worker_locations w (some k) v = some kk
    rcases hv with ⟨h1, h2⟩ | ⟨h1, h2⟩
    · rw [h1, h2, Function.update_same]
    · rw [Function.update_noteq h1]
      exact inv.mem_loc kk v h2
  · show Function.update P1 k (insert w (P1 k)) PoolKey.null = ∅
    rw [Finset.eq_empty_iff_forall_not_mem]
    intro v hv
    rw [hchar PoolKey.null v] at hv
    rcases hv with ⟨_, h2⟩ | ⟨_, h2⟩
    · exact hknull h2.symm
    · rw [inv.null_empty] at h2
      exact absurd h2 (Finset.not_mem_empty v)
  · have hcons := inv.conservation
    unfold poolSum movingSum at hcons ⊢
    show (∑ kk ∈ s.pool_keys,
        ((Function.update P1 k (insert w (P1 k)) kk).card : Int))
      + (∑ kk ∈ s.op_keys, s.num_moving_to_op kk) = n
    by_cases hko : k = old
    · have hfun : Function.update P1 k (insert w (P1 k)) = s.pools := by
        rw [hko, hP1, Function.update_same, Function.update_idem,
          Finset.insert_erase hwold, Function.update_eq_self]
      rw [hfun]
      exact hcons
    · have h1 : (∑ kk ∈ s.pool_keys,
          ((Function.update P1 k (insert w (P1 k)) kk).card : Int))
          = (∑ kk ∈ s.pool_keys, ((P1 kk).card : Int))
            + ((insert w (P1 k)).card : Int) - ((P1 k).card : Int) := by
        rw [card_comp_update]
        exact sum_update_int _ _ _ _ hk
      have h2 : (∑ kk ∈ s.pool_keys, ((P1 kk).card : Int))
          = (∑ kk ∈ s.pool_keys, ((s.pools kk).card : Int))
            + (((s.pools old).erase w).card : Int) - ((s.pools old).card : Int) := by
        rw [hP1, card_comp_update]
        exact sum_update_int _ _ _ _ hold
      have h4 : ((s.pools old).erase w).card = (s.pools old).card - 1 :=
        Finset.card_erase_of_mem hwold
      have h5 : 0 < (s.pools old).card := Finset.card_pos.mpr ⟨w, hwold⟩
      have h6 : (insert w (P1 k)).card = (P1 k).card + 1 :=
        Finset.card_insert_of_not_mem (hP1w k)
      rw [h1, h2]
      omega

theorem inv_send_worker {n : Nat} {s : WorkerAssignmentState} {w : Nat}
    {old k : PoolKey} (inv : WAInv n s)
    (hloc : s.worker_locations w = some old)
    (hk : k ∈ s.op_keys) :
    WAInv n (s.move_worker_to_pool w k true) := by
  obtain ⟨hold, hwold⟩ := inv.loc_mem w old hloc
  have holdnull : old ≠ PoolKey.null := by
    intro h
    rw [h, inv.null_empty] at hwold
    exact absurd hwold (Finset.not_mem_empty w)
  rw [move_worker_to_pool_true_some s w old k hloc]
  refine ⟨?_, ?_, ?_, ?_, inv.commit_pos, inv.commit_nodup, inv.commit_sum⟩
  · intro v kk h
    have h2 : Function.update s.worker_locations w none v = some kk := h
    by_cases hv : v = w
    · rw [hv, Function.update_same] at h2
      cases h2
    · rw [Function.update_noteq hv] at h2
      obtain ⟨h3, h4⟩ := inv.loc_mem v kk h2
      refine ⟨h3, ?_⟩
      show v ∈ Function.update s.pools old ((s.pools old).erase w) kk
      by_cases hko : kk = old
      · rw [hko, Function.update_same, Finset.mem_erase]
        exact ⟨hv, hko ▸ h4⟩
      · rw [Function.update_noteq hko]
        exact h4
  · intro kk v hv
    have hv2 : v ∈ Function.update s.pools old ((s.pools old).erase w) kk := hv
    show Function.update s.worker_locations w none v = some kk
    by_cases hko : kk = old
    · rw [hko, Function.update_same, Finset.mem_erase] at hv2
      rw [Function.update_noteq hv2.1]
      exact inv.mem_loc kk v (hko ▸ hv2.2)
    · rw [Function.update_noteq hko] at hv2
      have hvw : v ≠ w := by
        intro hvw
        have h2 := inv.mem_loc kk v hv2
        rw [hvw, hloc] at h2
        cases h2
        exact hko rfl
      rw [Function.update_noteq hvw]
      exact inv.mem_loc kk v hv2
  · show Function.update s.pools old ((s.pools old).erase w) PoolKey.null = ∅
    rw [Function.update_noteq (fun h => holdnull h.symm), inv.null_empty]
  · have hcons := inv.conservation
    unfold poolSum movingSum at hcons ⊢
    show (∑ kk ∈ s.pool_keys,
        ((Function.update s.pools old ((s.pools old).erase w) kk).card : Int))
      + (∑ kk ∈ s.op_keys,
        Function.update s.num_moving_to_op k (s.num_moving_to_op k + 1) kk) = n
    have h1 : (∑ kk ∈ s.pool_keys,
        ((Function.update s.pools old ((s.pools old).erase w) kk).card : Int))
        = (∑ kk ∈ s.pool_keys, ((s.pools kk).card : Int))
          + (((s.pools old).erase w).card : Int) - ((s.pools old).card : Int) := by
      rw [card_comp_update]
      exact sum_update_int _ _ _ _ hold
    have h2 : (∑ kk ∈ s.op_keys,
        Function.update s.num_moving_to_op k (s.num_moving_to_op k + 1) kk)
        = (∑ kk ∈ s.op_keys, s.num_moving_to_op kk)
          + (s.num_moving_to_op k + 1) - s.num_moving_to_op k :=
      sum_update_int _ _ _ _ hk
    have h4 : ((s.pools old).erase w).card = (s.pools old).card - 1 :=
      Finset.card_erase_of_mem hwold
    have h5 : 0 < (s.pools old).card := Finset.card_pos.mpr ⟨w, hwold⟩
    rw [h1, h2]
    omega

theorem inv_worker_arrive {n : Nat} {s : WorkerAssignmentState} {w : Nat}
    {k park : PoolKey} (inv : WAInv n s)
    (hloc : s.worker_locations w = none)
    (hk : k ∈ s.op_keys) (hpark : park ∈ s.pool_keys)
    (hparknull : park ≠ PoolKey.null) :
    WAInv n ((s.count_worker_arrival k).move_worker_to_pool w park false) := by
  have hwnot : ∀ kk, w ∉ s.pools kk := by
    intro kk hmem
    have h2 := inv.mem_loc kk w hmem
    rw [hloc] at h2
    cases h2
  have hlocc : (s.count_worker_arrival k).worker_locations w = none := hloc
  rw [move_worker_to_pool_false_none (s.count_worker_arrival k) w park hlocc]
  refine ⟨?_, ?_, ?_, ?_, inv.commit_pos, inv.commit_nodup, inv.commit_sum⟩
  · intro v kk h
    have h2 : Function.update s.worker_locations w (some park) v = some kk := h
    by_cases hv : v = w
    · rw [hv, Function.update_same] at h2
      cases h2
      refine ⟨hpark, ?_⟩
      show v ∈ Function.update s.pools park (insert w (s.pools park)) park
      rw [Function.update_same, hv]
      exact Finset.mem_insert_self w _
    · rw [Function.update_noteq hv] at h2
      obtain ⟨h3, h4⟩ := inv.loc_mem v kk h2
      refine ⟨h3, ?_⟩
      show v ∈ Function.update s.pools park (insert w (s.pools park)) kk
      by_cases hkp : kk = park
      · rw [hkp, Function.update_same]
        exact Finset.mem_insert_of_mem (hkp ▸ h4)
      · rw [Function.update_noteq hkp]
        exact h4
  · intro kk v hv
    have hv2 : v ∈ Function.update s.pools park (insert w (s.pools park)) kk := hv
    show Function.update s.worker_locations w (some park) v = some kk
    by_cases hkp : kk = park
    · rw [hkp, Function.update_same, Finset.mem_insert] at hv2
      rcases hv2 with hv2 | hv2
      · rw [hv2, hkp, Function.update_same]
      · have hvw : v ≠ w := fun hvw => hwnot park (hvw ▸ hv2)
        rw [Function.update_noteq hvw]
        exact inv.mem_loc kk v (hkp ▸ hv2)
    · rw [Function.update_noteq hkp] at hv2
      have hvw : v ≠ w := fun hvw => hwnot kk (hvw ▸ hv2)
      rw [Function.update_noteq hvw]
      exact inv.mem_loc kk v hv2
  · show Function.update s.pools park (insert w (s.pools park)) PoolKey.null = ∅
    rw [Function.update_noteq (fun h => hparknull h.symm), inv.null_empty]
  · have hcons := inv.conservation
    unfold poolSum movingSum at hcons ⊢
    show (∑ kk ∈ s.pool_keys,
        ((Function.update s.pools park (insert w (s.pools park)) kk).card : Int))
      + (∑ kk ∈ s.op_keys,
        Function.update s.num_moving_to_op k (s.num_moving_to_op k - 1) kk) = n
    have h1 : (∑ kk ∈ s.pool_keys,
        ((Function.update s.pools park (insert w (s.pools park)) kk).card : Int))
        = (∑ kk ∈ s.pool_keys, ((s.pools kk).card : Int))
          + ((insert w (s.pools park)).card : Int) - ((s.pools park).card : Int) := by
      rw [card_comp_update]
      exact sum_update_int _ _ _ _ hpark
    have h2 : (∑ kk ∈ s.op_keys,
        Function.update s.num_moving_to_op k (s.num_moving_to_op k - 1) kk)
        = (∑ kk ∈ s.op_keys, s.num_moving_to_op kk)
          + (s.num_moving_to_op k - 1) - s.num_moving_to_op k :=
      sum_update_int _ _ _ _ hk
    have h6 : (insert w (s.pools park)).card = (s.pools park).card + 1 :=
      Finset.card_insert_of_not_mem (hwnot park)
    rw [h1, h2]
    omega

/-- The master induction: every state the engine can reach in a non-crashed
run satisfies the invariant. -/
theorem reach_inv {n : Nat} {s : WorkerAssignmentState} (h : Reach n s) :
    WAInv n s := by
  induction h with
  | reset => exact inv_reset n
  | add_job _ hj ih => exact inv_add_job ih hj
  | add_op _ hj ho ih => exact inv_add_op ih hj ho
  | add_commitment _ hm _ _ ih => exact inv_add_commitment ih hm
  | remove_commitment _ hloc hc ih => exact inv_remove_commitment ih hloc hc
  | move_resident _ hloc hk hknull ih => exact inv_move_resident ih hloc hk hknull
  | send_worker _ hloc hk _ ih => exact inv_send_worker ih hloc hk
  | worker_arrive _ hloc hk _ hpark hparknull ih =>
      exact inv_worker_arrive ih hloc hk hpark hparknull
  | update_worker_source _ _ _ ih =>
      exact ⟨ih.loc_mem, ih.mem_loc, ih.null_empty, ih.conservation,
        ih.commit_pos, ih.commit_nodup, ih.commit_sum⟩
  | clear_worker_source _ ih =>
      exact ⟨ih.loc_mem, ih.mem_loc, ih.null_empty, ih.conservation,
        ih.commit_pos, ih.commit_nodup, ih.commit_sum⟩

/-! Claim theorems for the worker assignment state machine. -/

/-- Claim C1, counterexample: the engine's clamp `adjust_n_workers` bounds the
requested count only by the destination's worker demand, not by the supply at
the current source.  In this reachable state the clamped count is positive
(`5`), yet `add_commitment` with the clamped count violates the
`supply >= demand` assertion of `_increment_commitments`: the source pool
holds one worker while five commitments are recorded. -/
theorem claim_c1_counterexample :
    Reach 1 c1EnvState.wa ∧
    ((0, 0) : OpId) ∈ c1EnvState.schedulable_ops \ c1EnvState.selected_ops ∧
    c1EnvState.adjust_n_workers 5 (0, 0) = 5 ∧
    0 < c1EnvState.adjust_n_workers 5 (0, 0) ∧
    ¬ (c1EnvState.wa.add_commitment (c1EnvState.adjust_n_workers 5 (0, 0))
        (opKeyOf (0, 0))).supply_ge_demand := by
  refine ⟨?_, by decide, by decide, by decide, by decide⟩
  show Reach 1 (((WorkerAssignmentState.reset 1).add_job 0).add_op 0 0)
  exact Reach.add_op (Reach.add_job Reach.reset (by decide)) (by decide)
    (by decide)

/-- Claim C1, amended: after a call to `add_commitment` whose count is at most
the number of uncommitted workers at the current source — a bound the demand
clamp alone does not enforce — the `supply >= demand` assertion of
`_increment_commitments` holds. -/
theorem claim_c1_supply_ge_demand (s : WorkerAssignmentState) (m : Int)
    (dst : PoolKey) (h : m ≤ s.num_uncommitted_source_workers) :
    (s.add_commitment m dst).supply_ge_demand := by
  have h2 : s.num_uncommitted_source_workers
      = ((s.pools s.curr_source).card : Int)
        - s.num_commitments_from s.curr_source := rfl
  rw [h2] at h
  show Function.update s.num_commitments_from s.curr_source
      (s.num_commitments_from s.curr_source + m) s.curr_source
    ≤ ((s.pools s.curr_source).card : Int)
  rw [Function.update_same]
  omega

/-- Witness for the amended claim C1 at a concrete state. -/
theorem claim_c1_supply_ge_demand_witness :
    (1 : Int) ≤ (WorkerAssignmentState.reset 2).num_uncommitted_source_workers ∧
    ((WorkerAssignmentState.reset 2).add_commitment 1
      (PoolKey.opPool 0 0)).supply_ge_demand :=
  ⟨by decide, claim_c1_supply_ge_demand _ 1 _ (by decide)⟩

/-- Claim C2: for every state reachable from `reset(num_workers)` by the
engine's operations, the sum over all registered pools of their member-set
sizes plus the sum over all registered operation pools of their moving-to-op
counters equals the total worker count, and no worker is a member of two
different pools (each worker is counted exactly once). -/
theorem claim_c2_conservation {n : Nat} {s : WorkerAssignmentState}
    (h : Reach n s) :
    poolSum s + movingSum s = n ∧
      (∀ k1 k2 v, v ∈ s.pools k1 → v ∈ s.pools k2 → k1 = k2) := by
  have inv := reach_inv h
  refine ⟨inv.conservation, ?_⟩
  intro k1 k2 v h1 h2
  have e1 := inv.mem_loc k1 v h1
  have e2 := inv.mem_loc k2 v h2
  rw [e1] at e2
  cases e2
  rfl

/-- Witness for claim C2: conservation after a send and an arrival. -/
theorem claim_c2_conservation_witness :
    poolSum c2WitnessState + movingSum c2WitnessState = 2 ∧
      (∀ k1 k2 v, v ∈ c2WitnessState.pools k1 → v ∈ c2WitnessState.pools k2 →
        k1 = k2) := by
  refine claim_c2_conservation ?_
  show Reach 2 c2WitnessState
  unfold c2WitnessState
  exact Reach.worker_arrive
    (Reach.send_worker
      (Reach.add_op (Reach.add_job Reach.reset (by decide)) (by decide)
        (by decide))
      (show ((((WorkerAssignmentState.reset 2).add_job 0).add_op 0
          0)).worker_locations 0 = some PoolKey.general by decide)
      (by decide) (by decide))
    (by decide) (by decide) (by decide) (by decide) (by decide)

/-- Claim C9: in every reachable state of the worker assignment machine the
member set of the null pool is empty. -/
theorem claim_c9_null_pool_empty {n : Nat} {s : WorkerAssignmentState}
    (h : Reach n s) : s.pools PoolKey.null = ∅ :=
  (reach_inv h).null_empty

/-- Witness for claim C9 at a concrete reachable state. -/
theorem claim_c9_null_pool_empty_witness :
    c9WitnessState.pools PoolKey.null = ∅ := by
  refine @claim_c9_null_pool_empty 2 c9WitnessState ?_
  show Reach 2 c9WitnessState
  unfold c9WitnessState
  exact Reach.move_resident (Reach.add_job Reach.reset (by decide))
    (show ((WorkerAssignmentState.reset 2).add_job 0).worker_locations 0
      = some PoolKey.general by decide)
    (by decide) (by decide)

/-- Claim C10: in every reachable state every stored commitment entry has a
strictly positive count, `peek_commitment` only returns destinations whose
outstanding count is positive, and it returns `none` exactly when the pool's
total outgoing commitment count is zero. -/
theorem claim_c10_commitment_entries {n : Nat} {s : WorkerAssignmentState}
    (h : Reach n s) :
    (∀ k p, p ∈ s.commitments k → 0 < p.2) ∧
    (∀ k d c, (s.commitments k).head? = some (d, c) → 0 < c) ∧
    (∀ k, s.peek_commitment k = none ↔ s.num_commitments_from k = 0) := by
  have inv := reach_inv h
  refine ⟨inv.commit_pos, ?_, ?_⟩
  · intro k d c hh
    cases hl : s.commitments k with
    | nil => rw [hl] at hh; cases hh
    | cons a t =>
        rw [hl, List.head?_cons] at hh
        cases hh
        exact inv.commit_pos k (d, c) (by rw [hl]; exact List.mem_cons_self _ _)
  · intro k
    constructor
    · intro hp
      have hl : s.commitments k = [] := by
        cases hl : s.commitments k with
        | nil => rfl
        | cons a t =>
            obtain ⟨d, c⟩ := a
            unfold WorkerAssignmentState.peek_commitment at hp
            rw [hl] at hp
            cases hp
      rw [← inv.commit_sum k, hl]
      rfl
    · intro hz
      cases hl : s.commitments k with
      | nil =>
          unfold WorkerAssignmentState.peek_commitment
          rw [hl]
      | cons a t =>
          exfalso
          have hsum := inv.commit_sum k
          rw [hl, hz] at hsum
          have hpos := list_sum_pos_of_pos ((a :: t).map Prod.snd) ?_ (by simp)
          · omega
          · intro x hx
            obtain ⟨p, hp, hpx⟩ := List.mem_map.mp hx
            rw [← hpx]
            refine inv.commit_pos k p ?_
            rw [hl]
            exact hp

/-- Witness for claim C10 at a concrete reachable state with one outstanding
commitment. -/
theorem claim_c10_commitment_entries_witness :
    (∀ k p, p ∈ c10WitnessState.commitments k → 0 < p.2) ∧
    (∀ k d c, (c10WitnessState.commitments k).head? = some (d, c) → 0 < c) ∧
    (∀ k, c10WitnessState.peek_commitment k = none ↔
      c10WitnessState.num_commitments_from k = 0) := by
  refine @claim_c10_commitment_entries 1 c10WitnessState ?_
  show Reach 1 c10WitnessState
  unfold c10WitnessState
  exact Reach.add_commitment
    (Reach.add_op (Reach.add_job Reach.reset (by decide)) (by decide)
      (by decide))
    (by decide) (by decide) (by decide)

/-! Claim theorems for the step prelude: invalid actions, clamp, round
closure. -/

/-- Claim C4, counterexample: an action whose target is not schedulable (or
whose clamped worker count is non-positive) makes `step` fail a Python
`assert` — the run crashes with `AssertionError`; no recoverable
`InvalidAction` value exists anywhere in the code. -/
theorem claim_c4_counterexample :
    c4EnvState.stepCheck ((0, 0), 3) [] = StepOutcome.assertionError c4EnvState ∧
    ((0, 0) : OpId) ∈ c5EnvState.schedulable_ops \ c5EnvState.selected_ops ∧
    c5EnvState.stepCheck ((0, 0), 0) [] = StepOutcome.assertionError c5EnvState := by
  refine ⟨rfl, by decide, rfl⟩

/-- Claim C4, amended: when `step` rejects an action, it does so through an
assertion that fires before any mutation — the engine state at the moment of
the failure is exactly the state at entry. -/
theorem claim_c4_assert_state_unchanged (e : EnvState) (a : OpId × Int)
    (newOps : List OpId) (e2 : EnvState)
    (h : e.stepCheck a newOps = StepOutcome.assertionError e2) : e2 = e := by
  unfold EnvState.stepCheck at h
  split_ifs at h
  all_goals
    first
      | (injection h with h2; exact h2.symm)
      | exact StepOutcome.noConfusion h
      | (dsimp only at h; split at h <;> exact StepOutcome.noConfusion h)

/-- Witness for the amended claim C4 at a concrete invalid action. -/
theorem claim_c4_assert_state_unchanged_witness :
    c4EnvState.stepCheck ((0, 0), 3) [] = StepOutcome.assertionError c4EnvState ∧
    c4EnvState = c4EnvState :=
  ⟨rfl, claim_c4_assert_state_unchanged c4EnvState ((0, 0), 3) [] c4EnvState rfl⟩

/-- Claim C5, counterexample: for a target that is schedulable and unselected
(the claim's notion of a legal call), a requested count of `0` clamps to `0`,
which is not strictly positive. -/
theorem claim_c5_counterexample :
    ((0, 0) : OpId) ∈ c5EnvState.schedulable_ops \ c5EnvState.selected_ops ∧
    c5EnvState.adjust_n_workers 0 (0, 0) = 0 := by
  decide

/-- Claim C6: a step call that passes validation closes the round exactly
when, in the post-commitment state, the source pool's member count equals its
outgoing commitment count (all source workers committed) or every schedulable
operation is selected; otherwise it returns control for another decision. -/
theorem claim_c6_round_closure (e : EnvState) (a : OpId × Int)
    (newOps : List OpId)
    (hdone : e.done = false)
    (hjob : a.1.1 ∈ e.active_job_ids)
    (hop : a.1.2 < e.job_num_ops a.1.1)
    (htgt : a.1 ∈ e.schedulable_ops \ e.selected_ops)
    (hpos : 0 < e.adjust_n_workers a.2 a.1) :
    (e.stepCheck a newOps = StepOutcome.roundClosed (stepPost e a newOps) ↔
      ((((stepPost e a newOps).wa.pools
            (stepPost e a newOps).wa.curr_source).card : Int)
          = (stepPost e a newOps).wa.num_commitments_from
              (stepPost e a newOps).wa.curr_source
        ∨ (stepPost e a newOps).schedulable_ops
            ⊆ (stepPost e a newOps).selected_ops)) ∧
    (e.stepCheck a newOps = StepOutcome.continueRound (stepPost e a newOps) ↔
      ¬ ((((stepPost e a newOps).wa.pools
            (stepPost e a newOps).wa.curr_source).card : Int)
          = (stepPost e a newOps).wa.num_commitments_from
              (stepPost e a newOps).wa.curr_source
        ∨ (stepPost e a newOps).schedulable_ops
            ⊆ (stepPost e a newOps).selected_ops)) := by
  have hcomp : (stepPost e a newOps).is_commitment_round_complete ↔
      ((((stepPost e a newOps).wa.pools
          (stepPost e a newOps).wa.curr_source).card : Int)
        = (stepPost e a newOps).wa.num_commitments_from
            (stepPost e a newOps).wa.curr_source
      ∨ (stepPost e a newOps).schedulable_ops
          ⊆ (stepPost e a newOps).selected_ops) := by
    unfold EnvState.is_commitment_round_complete
      WorkerAssignmentState.all_source_workers_committed
      WorkerAssignmentState.num_uncommitted_source_workers
    exact or_congr sub_eq_zero Finset.sdiff_eq_empty_iff_subset
  have hstep : e.stepCheck a newOps =
      if (stepPost e a newOps).is_commitment_round_complete then
        StepOutcome.roundClosed (stepPost e a newOps)
      else StepOutcome.continueRound (stepPost e a newOps) := by
    unfold EnvState.stepCheck stepPost
    rw [if_neg (by simp [hdone]), if_neg (not_not_intro hjob),
      if_neg (not_not_intro hop), if_neg (not_not_intro htgt),
      if_neg (not_not_intro hpos)]
  rw [hstep]
  by_cases hc : (stepPost e a newOps).is_commitment_round_complete
  · rw [if_pos hc]
    refine ⟨⟨fun _ => hcomp.mp hc, fun _ => rfl⟩, ?_, ?_⟩
    · intro hh
      exact StepOutcome.noConfusion hh
    · intro hh
      exact absurd (hcomp.mp hc) hh
  · rw [if_neg hc]
    refine ⟨⟨?_, ?_⟩, ?_, ?_⟩
    · intro hh
      exact StepOutcome.noConfusion hh
    · intro hh
      exact absurd (hcomp.mpr hh) hc
    · intro _ hh2
      exact hc (hcomp.mpr hh2)
    · intro _
      rfl

/-- Witness for claim C6: with a single source worker and two schedulable
operations, committing the worker to one operation closes the round even
though a schedulable operation remains unselected. -/
theorem claim_c6_round_closure_witness :
    (c6EnvState.stepCheck ((0, 0), 1) []
        = StepOutcome.roundClosed (stepPost c6EnvState ((0, 0), 1) []) ↔
      ((((stepPost c6EnvState ((0, 0), 1) []).wa.pools
            (stepPost c6EnvState ((0, 0), 1) []).wa.curr_source).card : Int)
          = (stepPost c6EnvState ((0, 0), 1) []).wa.num_commitments_from
              (stepPost c6EnvState ((0, 0), 1) []).wa.curr_source
        ∨ (stepPost c6EnvState ((0, 0), 1) []).schedulable_ops
            ⊆ (stepPost c6EnvState ((0, 0), 1) []).selected_ops)) ∧
    (c6EnvState.stepCheck ((0, 0), 1) []
        = StepOutcome.continueRound (stepPost c6EnvState ((0, 0), 1) []) ↔
      ¬ ((((stepPost c6EnvState ((0, 0), 1) []).wa.pools
            (stepPost c6EnvState ((0, 0), 1) []).wa.curr_source).card : Int)
          = (stepPost c6EnvState ((0, 0), 1) []).wa.num_commitments_from
              (stepPost c6EnvState ((0, 0), 1) []).wa.curr_source
        ∨ (stepPost c6EnvState ((0, 0), 1) []).schedulable_ops
            ⊆ (stepPost c6EnvState ((0, 0), 1) []).selected_ops)) :=
  claim_c6_round_closure c6EnvState ((0, 0), 1) [] rfl (by decide) (by decide)
    (by decide) (by decide)

/-! Helper lemmas for the schedulable-set transitions. -/

theorem processOpSaturation_ops_complete (e : EnvState) (i : OpId)
    (newOps : List OpId) (p : OpId) :
    ((e.process_op_saturation i newOps).ops p).completed ↔
      (e.ops p).completed := by
  show ((Function.update e.ops i { e.ops i with sat_flag := true } p)).completed
    ↔ (e.ops p).completed
  by_cases hp : p = i
  · subst hp
    rw [Function.update_same]
    exact Iff.rfl
  · rw [Function.update_noteq hp]

theorem saturation_checked_ops_complete (e : EnvState) (i : OpId)
    (newOps : List OpId) (p : OpId) :
    ((e.saturation_checked i newOps).ops p).completed ↔
      (e.ops p).completed := by
  unfold EnvState.saturation_checked
  split_ifs
  · exact processOpSaturation_ops_complete e i newOps p
  · exact Iff.rfl

theorem saturation_checked_sched (e : EnvState) (i : OpId)
    (newOps : List OpId) :
    (e.saturation_checked i newOps).schedulable_ops
        = (e.schedulable_ops.erase i) ∪ newOps.toFinset ∨
      (e.saturation_checked i newOps).schedulable_ops = e.schedulable_ops := by
  unfold EnvState.saturation_checked
  split_ifs
  · exact Or.inl rfl
  · exact Or.inr rfl

theorem apply_commitment_ops_complete (e : EnvState) (i : OpId) (nAdj : Int)
    (newOps : List OpId) (p : OpId) :
    ((e.apply_commitment i nAdj newOps).ops p).completed ↔
      (e.ops p).completed := by
  unfold EnvState.apply_commitment
  dsimp only
  split_ifs
  · exact processOpSaturation_ops_complete _ i newOps p
  · exact Iff.rfl

theorem apply_commitment_sched (e : EnvState) (i : OpId) (nAdj : Int)
    (newOps : List OpId) :
    (e.apply_commitment i nAdj newOps).schedulable_ops
        = (e.schedulable_ops.erase i) ∪ newOps.toFinset ∨
      (e.apply_commitment i nAdj newOps).schedulable_ops
        = e.schedulable_ops := by
  unfold EnvState.apply_commitment
  dsimp only
  split_ifs
  · exact Or.inl rfl
  · exact Or.inr rfl

theorem readd_sched (e : EnvState) (i : OpId) :
    ((e.readd_if_needed i).schedulable_ops = insert i e.schedulable_ops ∧
      ¬ e.is_op_saturated i ∧ i ∉ e.schedulable_ops) ∨
    (e.readd_if_needed i).schedulable_ops = e.schedulable_ops := by
  unfold EnvState.readd_if_needed
  split_ifs with hc
  · exact Or.inl ⟨rfl, hc⟩
  · exact Or.inr rfl

theorem readd_ops_complete (e : EnvState) (i : OpId) (p : OpId) :
    ((e.readd_if_needed i).ops p).completed ↔ (e.ops p).completed := by
  unfold EnvState.readd_if_needed
  split_ifs
  · show ((Function.update e.ops i { e.ops i with sat_flag := false } p)).completed
      ↔ (e.ops p).completed
    by_cases hp : p = i
    · subst hp
      rw [Function.update_same]
      exact Iff.rfl
    · rw [Function.update_noteq hp]
  · exact Iff.rfl

theorem not_completed_of_unsaturated (e : EnvState) (i : OpId)
    (hmv : 0 ≤ e.wa.num_moving_to_op (opKeyOf i))
    (hct : 0 ≤ e.wa.num_commitments_to_op (opKeyOf i))
    (hd : ¬ e.is_op_saturated i) : ¬ (e.ops i).completed := by
  unfold EnvState.is_op_saturated EnvState.get_worker_demand
    EnvOp.n_remaining_tasks EnvOp.n_saturated_tasks at hd
  unfold EnvOp.completed
  rw [not_le] at hd
  intro hc
  omega

theorem move_false_moving (s : WorkerAssignmentState) (w : Nat) (k : PoolKey) :
    (s.move_worker_to_pool w k false).num_moving_to_op = s.num_moving_to_op := by
  cases hl : s.worker_locations w with
  | none => rw [move_worker_to_pool_false_none s w k hl]
  | some old => rw [move_worker_to_pool_false_some s w old k hl]

theorem move_false_commits_to (s : WorkerAssignmentState) (w : Nat)
    (k : PoolKey) :
    (s.move_worker_to_pool w k false).num_commitments_to_op
      = s.num_commitments_to_op := by
  cases hl : s.worker_locations w with
  | none => rw [move_worker_to_pool_false_none s w k hl]
  | some old => rw [move_worker_to_pool_false_some s w old k hl]

theorem remove_commitment_moving (s : WorkerAssignmentState) (w : Nat)
    (dst : PoolKey) :
    (s.remove_commitment w dst).num_moving_to_op = s.num_moving_to_op := by
  cases hl : s.worker_locations w with
  | none => unfold WorkerAssignmentState.remove_commitment; rw [hl]
  | some src =>
      rw [remove_commitment_eq s w src dst hl]
      rfl

theorem remove_commitment_commits_to (s : WorkerAssignmentState) (w : Nat)
    (src dst : PoolKey) (hloc : s.worker_locations w = some src) :
    (s.remove_commitment w dst).num_commitments_to_op
      = Function.update s.num_commitments_to_op dst
          (s.num_commitments_to_op dst - 1) := by
  rw [remove_commitment_eq s w src dst hloc]
  rfl

theorem park_wa_moving (s : WorkerAssignmentState) (w : Nat) (k park : PoolKey) :
    ((s.count_worker_arrival k).move_worker_to_pool w park false).num_moving_to_op
      = Function.update s.num_moving_to_op k (s.num_moving_to_op k - 1) := by
  rw [move_false_moving]
  rfl

theorem park_wa_commits_to (s : WorkerAssignmentState) (w : Nat)
    (k park : PoolKey) :
    ((s.count_worker_arrival k).move_worker_to_pool w park
        false).num_commitments_to_op
      = s.num_commitments_to_op := by
  rw [move_false_commits_to]
  rfl

theorem fulfill_park_wa_moving (s : WorkerAssignmentState) (w : Nat) (i : OpId) :
    (((s.remove_commitment w (opKeyOf i)).move_worker_to_pool w (opKeyOf i)
        false).move_worker_to_pool w (PoolKey.jobPool i.1) false).num_moving_to_op
      = s.num_moving_to_op := by
  rw [move_false_moving, move_false_moving, remove_commitment_moving]

theorem fulfill_park_wa_commits_to (s : WorkerAssignmentState) (w : Nat)
    (i : OpId) (src : PoolKey) (hloc : s.worker_locations w = some src) :
    (((s.remove_commitment w (opKeyOf i)).move_worker_to_pool w (opKeyOf i)
        false).move_worker_to_pool w (PoolKey.jobPool i.1)
          false).num_commitments_to_op
      = Function.update s.num_commitments_to_op (opKeyOf i)
          (s.num_commitments_to_op (opKeyOf i) - 1) := by
  rw [move_false_commits_to, move_false_commits_to,
    remove_commitment_commits_to s w src (opKeyOf i) hloc]

/-- No transition makes a completed operation's completion regress. -/
theorem sched_step_completed_mono {e e2 : EnvState} (h : SchedStep e e2)
    (p : OpId) (hc : (e.ops p).completed) : (e2.ops p).completed := by
  cases h with
  | job_arrival j srcOps h1 h2 => exact hc
  | step_commit i nreq newOps hd hj ho ht hpos hsup hnew =>
      exact (apply_commitment_ops_complete e i _ newOps p).mpr hc
  | fulfill_send_cross w i src newOps h1 h2 h3 h4 h5 =>
      exact (saturation_checked_ops_complete _ i newOps p).mpr hc
  | worker_arrival_park w i h1 h2 h3 h4 =>
      exact (readd_ops_complete _ i p).mpr hc
  | fulfill_same_job_park w i src h1 h2 h3 h4 h5 h6 h7 =>
      exact (readd_ops_complete _ i p).mpr hc
  | work_on_op w i newOps h1 h2 =>
      refine (saturation_checked_ops_complete _ i newOps p).mpr ?_
      by_cases hp : p = i
      · subst hp
        show (Function.update e.ops p
          { e.ops p with
            n_processing_tasks := (e.ops p).n_processing_tasks + 1 } p).completed
        rw [Function.update_same]
        exact hc
      · show (Function.update e.ops i
          { e.ops i with
            n_processing_tasks := (e.ops i).n_processing_tasks + 1 } p).completed
        rw [Function.update_noteq hp]
        exact hc
  | task_complete_continue w i newOps h1 h2 h3 h4 =>
      refine (saturation_checked_ops_complete _ i newOps p).mpr ?_
      by_cases hp : p = i
      · subst hp
        exact absurd hc (by unfold EnvOp.completed; omega)
      · show (Function.update e.ops i
          { e.ops i with
            n_completed_tasks := (e.ops i).n_completed_tasks + 1 } p).completed
        rw [Function.update_noteq hp]
        exact hc
  | task_complete_finish w i newF h1 h2 h3 h4 =>
      by_cases hp : p = i
      · subst hp
        exact absurd hc (by unfold EnvOp.completed; omega)
      · show (Function.update e.ops i
          { e.ops i with
            n_completed_tasks := (e.ops i).n_completed_tasks + 1
            n_processing_tasks := (e.ops i).n_processing_tasks - 1 } p).completed
        rw [Function.update_noteq hp]
        exact hc

/-- No transition inserts a completed operation into the schedulable set. -/
theorem sched_step_no_completed_insert {e e2 : EnvState} (h : SchedStep e e2)
    (p : OpId) (hc : (e.ops p).completed) (hp : p ∈ e2.schedulable_ops) :
    p ∈ e.schedulable_ops := by
  cases h with
  | job_arrival j srcOps h1 h2 =>
      rcases Finset.mem_union.mp hp with hp2 | hp2
      · exact hp2
      · exact absurd hc (h2 p (List.mem_toFinset.mp hp2)).1
  | step_commit i nreq newOps hd hj ho ht hpos hsup hnew =>
      rcases apply_commitment_sched e i _ newOps with hs | hs
      · rw [hs] at hp
        rcases Finset.mem_union.mp hp with hp2 | hp2
        · exact Finset.mem_of_mem_erase hp2
        · exact absurd hc (hnew p (List.mem_toFinset.mp hp2)).2.1
      · rw [hs] at hp
        exact hp
  | fulfill_send_cross w i src newOps h1 h2 h3 h4 h5 =>
      rcases saturation_checked_sched
          { e with
            wa := (e.wa.remove_commitment w (opKeyOf i)).move_worker_to_pool w
              (opKeyOf i) true }
          i newOps with hs | hs
      · rw [hs] at hp
        rcases Finset.mem_union.mp hp with hp2 | hp2
        · exact Finset.mem_of_mem_erase hp2
        · exact absurd hc (h5 p (List.mem_toFinset.mp hp2)).2.1
      · rw [hs] at hp
        exact hp
  | worker_arrival_park w i h1 h2 h3 h4 =>
      rcases readd_sched
          { e with
            wa := (e.wa.count_worker_arrival (opKeyOf i)).move_worker_to_pool w
              (PoolKey.jobPool i.1) false }
          i with ⟨hs, hcnd, hni⟩ | hs
      · rw [hs] at hp
        rcases Finset.mem_insert.mp hp with hp2 | hp2
        · subst hp2
          exfalso
          have hmv2 : 0 ≤ ((e.wa.count_worker_arrival
              (opKeyOf p)).move_worker_to_pool w (PoolKey.jobPool p.1)
                false).num_moving_to_op (opKeyOf p) := by
            rw [park_wa_moving, Function.update_same]
            omega
          have hct2 : 0 ≤ ((e.wa.count_worker_arrival
              (opKeyOf p)).move_worker_to_pool w (PoolKey.jobPool p.1)
                false).num_commitments_to_op (opKeyOf p) := by
            rw [park_wa_commits_to]
            exact h4
          exact not_completed_of_unsaturated _ p hmv2 hct2 hcnd hc
        · exact hp2
      · rw [hs] at hp
        exact hp
  | fulfill_same_job_park w i src h1 h2 h3 h4 h5 h6 h7 =>
      rcases readd_sched
          { e with
            wa := (((e.wa.remove_commitment w (opKeyOf i)).move_worker_to_pool w
              (opKeyOf i) false)).move_worker_to_pool w (PoolKey.jobPool i.1)
                false }
          i with ⟨hs, hcnd, hni⟩ | hs
      · rw [hs] at hp
        rcases Finset.mem_insert.mp hp with hp2 | hp2
        · subst hp2
          exfalso
          have hmv2 : 0 ≤ (((e.wa.remove_commitment w
              (opKeyOf p)).move_worker_to_pool w (opKeyOf p)
                false).move_worker_to_pool w (PoolKey.jobPool p.1)
                  false).num_moving_to_op (opKeyOf p) := by
            rw [fulfill_park_wa_moving]
            exact h6
          have hct2 : 0 ≤ (((e.wa.remove_commitment w
              (opKeyOf p)).move_worker_to_pool w (opKeyOf p)
                false).move_worker_to_pool w (PoolKey.jobPool p.1)
                  false).num_commitments_to_op (opKeyOf p) := by
            rw [fulfill_park_wa_commits_to e.wa w p src h2, Function.update_same]
            omega
          exact not_completed_of_unsaturated _ p hmv2 hct2 hcnd hc
        · exact hp2
      · rw [hs] at hp
        exact hp
  | work_on_op w i newOps h1 h2 =>
      rcases saturation_checked_sched
          { e with
            ops := Function.update e.ops i
              { e.ops i with
                n_processing_tasks := (e.ops i).n_processing_tasks + 1 } }
          i newOps with hs | hs
      · rw [hs] at hp
        rcases Finset.mem_union.mp hp with hp2 | hp2
        · exact Finset.mem_of_mem_erase hp2
        · exact absurd hc (h2 p (List.mem_toFinset.mp hp2)).2.1
      · rw [hs] at hp
        exact hp
  | task_complete_continue w i newOps h1 h2 h3 h4 =>
      rcases saturation_checked_sched
          { e with
            ops := Function.update e.ops i
              { e.ops i with
                n_completed_tasks := (e.ops i).n_completed_tasks + 1 } }
          i newOps with hs | hs
      · rw [hs] at hp
        rcases Finset.mem_union.mp hp with hp2 | hp2
        · exact Finset.mem_of_mem_erase hp2
        · exact absurd hc (h4 p (List.mem_toFinset.mp hp2)).2.1
      · rw [hs] at hp
        exact hp
  | task_complete_finish w i newF h1 h2 h3 h4 =>
      exact hp

/-- Completion is stable along any sequence of engine transitions. -/
theorem sched_star_completed_mono {e e2 : EnvState}
    (h : Relation.ReflTransGen SchedStep e e2) (p : OpId)
    (hc : (e.ops p).completed) : (e2.ops p).completed := by
  induction h with
  | refl => exact hc
  | tail hstar hstep ih => exact sched_step_completed_mono hstep p ih

/-- Claim C3, amended: once an operation is completed, it never re-enters the
schedulable set along any sequence of engine transitions.  (The first half of
the original claim — a stage enters the schedulable set at most once — fails
on the code; a concrete re-entry trace is exhibited separately.) -/
theorem claim_c3_completed_never_reenters {e e2 : EnvState}
    (h : Relation.ReflTransGen SchedStep e e2) (i : OpId)
    (hc : (e.ops i).completed) (hn : i ∉ e.schedulable_ops) :
    i ∉ e2.schedulable_ops := by
  induction h with
  | refl => exact hn
  | tail hstar hstep ih =>
      intro hmem
      exact ih (sched_step_no_completed_insert hstep i
        (sched_star_completed_mono hstar i hc) hmem)

/-- Witness for the amended claim C3: a completed operation stays out of the
schedulable set across a job arrival. -/
theorem claim_c3_completed_never_reenters_witness :
    (c3W0.ops (0, 0)).completed ∧ ((0, 0) : OpId) ∉ c3W0.schedulable_ops ∧
    ((0, 0) : OpId) ∉ c3W1.schedulable_ops := by
  refine ⟨by decide, by decide, ?_⟩
  refine @claim_c3_completed_never_reenters c3W0 c3W1 ?_ (0, 0) (by decide)
    (by decide)
  refine Relation.ReflTransGen.single ?_
  show SchedStep c3W0 c3W1
  unfold c3W1
  exact SchedStep.job_arrival c3W0 1 [(1, 0)] (by decide) (by decide)

/-- Claim C3, counterexample to single entry: along the engine trace
`c3S0 → ... → c3S6`, operation `(1, 1)` enters the schedulable set when its
parent saturates, leaves it when it is fully committed, and enters it a
second time when the promised worker arrives after the operation saturated-
then-unsaturated ("op is schedulable again" in `_process_worker_arrival`). -/
theorem claim_c3_counterexample :
    SchedStep c3S0 c3S1 ∧ SchedStep c3S1 c3S2 ∧ SchedStep c3S2 c3S3 ∧
    SchedStep c3S3 c3S4 ∧ SchedStep c3S4 c3S5 ∧ SchedStep c3S5 c3S6 ∧
    ((1, 1) : OpId) ∉ c3S1.schedulable_ops ∧
    ((1, 1) : OpId) ∈ c3S2.schedulable_ops ∧
    ((1, 1) : OpId) ∉ c3S3.schedulable_ops ∧
    ((1, 1) : OpId) ∉ c3S5.schedulable_ops ∧
    ((1, 1) : OpId) ∈ c3S6.schedulable_ops := by
  refine ⟨?_, ?_, ?_, ?_, ?_, ?_, by decide, by decide, by decide, by decide,
    by decide⟩
  · unfold c3S1
    exact SchedStep.job_arrival c3S0 1 [(1, 0)] (by decide) (by decide)
  · unfold c3S2
    exact SchedStep.step_commit c3S1 (1, 0) 1 [(1, 1)] (by decide) (by decide)
      (by decide) (by decide) (by decide) (by decide) (by decide)
  · unfold c3S3
    exact SchedStep.step_commit c3S2 (1, 1) 1 [] (by decide) (by decide)
      (by decide) (by decide) (by decide) (by decide) (by decide)
  · unfold c3S4
    exact SchedStep.fulfill_send_cross c3S3 0 (1, 0) PoolKey.general []
      (by decide) (by decide) (by decide) (by decide) (by decide)
  · unfold c3S5
    exact SchedStep.fulfill_send_cross c3S4 1 (1, 1) PoolKey.general []
      (by decide) (by decide) (by decide) (by decide) (by decide)
  · unfold c3S6
    exact SchedStep.worker_arrival_park c3S5 1 (1, 1) (by decide) (by decide)
      (by decide) (by decide)

/-! Helper lemmas for the schedulable-demand invariant: how each engine
transition changes the worker demand of each operation. -/

theorem opKeyOf_ne {p q : OpId} (h : p ≠ q) : opKeyOf p ≠ opKeyOf q := by
  intro hk
  apply h
  obtain ⟨p1, p2⟩ := p
  obtain ⟨q1, q2⟩ := q
  injection hk with h1 h2
  subst h1
  subst h2
  rfl

theorem move_worker_to_pool_true_none (s : WorkerAssignmentState) (w : Nat)
    (k : PoolKey) (hloc : s.worker_locations w = none) :
    s.move_worker_to_pool w k true =
      { s with
        num_moving_to_op := Function.update s.num_moving_to_op k
          (s.num_moving_to_op k + 1)
        total_worker_count :=
          sendTotalAdjust s.total_worker_count k.jobId none } := by
  unfold WorkerAssignmentState.move_worker_to_pool
  rw [hloc]
  rfl

theorem move_true_moving (s : WorkerAssignmentState) (w : Nat) (k : PoolKey) :
    (s.move_worker_to_pool w k true).num_moving_to_op
      = Function.update s.num_moving_to_op k (s.num_moving_to_op k + 1) := by
  cases hl : s.worker_locations w with
  | none => rw [move_worker_to_pool_true_none s w k hl]
  | some old => rw [move_worker_to_pool_true_some s w old k hl]

theorem move_true_commits_to (s : WorkerAssignmentState) (w : Nat)
    (k : PoolKey) :
    (s.move_worker_to_pool w k true).num_commitments_to_op
      = s.num_commitments_to_op := by
  cases hl : s.worker_locations w with
  | none => rw [move_worker_to_pool_true_none s w k hl]
  | some old => rw [move_worker_to_pool_true_some s w old k hl]

theorem add_commitment_moving (s : WorkerAssignmentState) (m : Int)
    (dst : PoolKey) :
    (s.add_commitment m dst).num_moving_to_op = s.num_moving_to_op := rfl

theorem add_commitment_commits_to (s : WorkerAssignmentState) (m : Int)
    (dst : PoolKey) :
    (s.add_commitment m dst).num_commitments_to_op
      = Function.update s.num_commitments_to_op dst
          (s.num_commitments_to_op dst + m) := rfl

/-- `add_job` and a fold of `add_op` over operations not containing `p` leave
the two demand counters of `p` unchanged: each `add_op` zeroes only the
counters of its own (fresh) operation key. -/
theorem add_ops_fold_counters (l : List OpId) :
    ∀ (t : WorkerAssignmentState) (p : OpId), p ∉ l →
      ((l.foldl (fun u q => u.add_op q.1 q.2) t).num_commitments_to_op (opKeyOf p)
          = t.num_commitments_to_op (opKeyOf p)
        ∧ (l.foldl (fun u q => u.add_op q.1 q.2) t).num_moving_to_op (opKeyOf p)
          = t.num_moving_to_op (opKeyOf p)) := by
  induction l with
  | nil => intro t p hp; exact ⟨rfl, rfl⟩
  | cons q rest ih =>
      intro t p hp
      have hpq : p ≠ q := fun h => hp (h ▸ List.mem_cons_self q rest)
      have hrest : p ∉ rest := fun h => hp (List.mem_cons_of_mem q h)
      obtain ⟨h1, h2⟩ := ih (t.add_op q.1 q.2) p hrest
      rw [List.foldl_cons]
      refine ⟨?_, ?_⟩
      · rw [h1]
        show Function.update t.num_commitments_to_op (PoolKey.opPool q.1 q.2) 0
            (opKeyOf p)
          = t.num_commitments_to_op (opKeyOf p)
        exact Function.update_noteq (opKeyOf_ne hpq) 0 t.num_commitments_to_op
      · rw [h2]
        show Function.update t.num_moving_to_op (PoolKey.opPool q.1 q.2) 0
            (opKeyOf p)
          = t.num_moving_to_op (opKeyOf p)
        exact Function.update_noteq (opKeyOf_ne hpq) 0 t.num_moving_to_op

/-- `_process_op_saturation` does not change the demand of any operation
outside the freshly unlocked list: the saturation flag does not enter the
demand, and the `add_op` registrations only zero the counters of the fresh
operations. -/
theorem processOpSaturation_demand (e : EnvState) (i : OpId)
    (newOps : List OpId) (p : OpId) (hp : p ∉ newOps) :
    (e.process_op_saturation i newOps).get_worker_demand p
      = e.get_worker_demand p := by
  unfold EnvState.get_worker_demand EnvState.process_op_saturation
  dsimp only
  obtain ⟨h1, h2⟩ := add_ops_fold_counters newOps e.wa p hp
  rw [h1, h2]
  by_cases hpi : p = i
  · subst hpi
    rw [Function.update_same]
    rfl
  · rw [Function.update_noteq hpi]

/-- The saturation check leaves every demand unchanged (for operations outside
the freshly unlocked list). -/
theorem saturation_checked_demand (e : EnvState) (i : OpId)
    (newOps : List OpId) (p : OpId) (hp : p ∉ newOps) :
    (e.saturation_checked i newOps).get_worker_demand p
      = e.get_worker_demand p := by
  unfold EnvState.saturation_checked
  split_ifs
  · exact processOpSaturation_demand e i newOps p hp
  · rfl

/-- The re-add branch changes no demand: it only touches the schedulable set
and the saturation flag. -/
theorem readd_demand (e : EnvState) (i : OpId) (p : OpId) :
    (e.readd_if_needed i).get_worker_demand p = e.get_worker_demand p := by
  unfold EnvState.readd_if_needed
  split_ifs
  · unfold EnvState.get_worker_demand
    dsimp only
    by_cases hpi : p = i
    · subst hpi
      rw [Function.update_same]
      rfl
    · rw [Function.update_noteq hpi]
  · rfl

/-- `add_commitment` to operation `i` lowers the demand of `i` by the
committed count and changes no other demand. -/
theorem add_commitment_env_demand (e : EnvState) (i : OpId) (nAdj : Int)
    (p : OpId) :
    ({ e with wa := e.wa.add_commitment nAdj (opKeyOf i) } :
        EnvState).get_worker_demand p
      = e.get_worker_demand p - (if p = i then nAdj else 0) := by
  unfold EnvState.get_worker_demand
  dsimp only
  rw [add_commitment_moving, add_commitment_commits_to]
  by_cases hpi : p = i
  · subst hpi
    rw [Function.update_same, if_pos rfl]
    ring
  · rw [Function.update_noteq (opKeyOf_ne hpi), if_neg hpi]
    ring

/-- Sending a worker to fulfill a commitment (`_fulfill_commitment`, `move`
branch) leaves every demand unchanged: one outstanding commitment to the
target becomes one moving worker. -/
theorem send_env_demand (e : EnvState) (w : Nat) (i : OpId) (src : PoolKey)
    (hloc : e.wa.worker_locations w = some src) (p : OpId) :
    ({ e with
        wa := (e.wa.remove_commitment w (opKeyOf i)).move_worker_to_pool w
          (opKeyOf i) true } : EnvState).get_worker_demand p
      = e.get_worker_demand p := by
  unfold EnvState.get_worker_demand
  dsimp only
  rw [move_true_moving, remove_commitment_moving, move_true_commits_to,
    remove_commitment_commits_to e.wa w src (opKeyOf i) hloc]
  by_cases hpi : p = i
  · subst hpi
    rw [Function.update_same, Function.update_same]
    ring
  · rw [Function.update_noteq (opKeyOf_ne hpi),
      Function.update_noteq (opKeyOf_ne hpi)]

/-- A worker arrival parked at the job pool raises the demand of the awaited
operation by one and changes no other demand. -/
theorem park_env_demand (e : EnvState) (w : Nat) (i : OpId) (p : OpId) :
    ({ e with
        wa := (e.wa.count_worker_arrival (opKeyOf i)).move_worker_to_pool w
          (PoolKey.jobPool i.1) false } : EnvState).get_worker_demand p
      = e.get_worker_demand p + (if p = i then 1 else 0) := by
  unfold EnvState.get_worker_demand
  dsimp only
  rw [park_wa_moving, park_wa_commits_to]
  by_cases hpi : p = i
  · subst hpi
    rw [Function.update_same, if_pos rfl]
    ring
  · rw [Function.update_noteq (opKeyOf_ne hpi), if_neg hpi]
    ring

/-- Fulfilling a same-job commitment and parking the worker at the job pool
raises the demand of the target operation by one and changes no other
demand. -/
theorem fulfill_park_env_demand (e : EnvState) (w : Nat) (i : OpId)
    (src : PoolKey) (hloc : e.wa.worker_locations w = some src) (p : OpId) :
    ({ e with
        wa := (((e.wa.remove_commitment w (opKeyOf i)).move_worker_to_pool w
          (opKeyOf i) false)).move_worker_to_pool w (PoolKey.jobPool i.1)
            false } : EnvState).get_worker_demand p
      = e.get_worker_demand p + (if p = i then 1 else 0) := by
  unfold EnvState.get_worker_demand
  dsimp only
  rw [fulfill_park_wa_moving, fulfill_park_wa_commits_to e.wa w i src hloc]
  by_cases hpi : p = i
  · subst hpi
    rw [Function.update_same, if_pos rfl]
    ring
  · rw [Function.update_noteq (opKeyOf_ne hpi), if_neg hpi]
    ring

/-- Assigning a worker to a task of operation `i` lowers the demand of `i` by
one and changes no other demand. -/
theorem work_env_demand (e : EnvState) (i : OpId) (p : OpId) :
    ({ e with
        ops := Function.update e.ops i
          { e.ops i with
            n_processing_tasks := (e.ops i).n_processing_tasks + 1 } } :
        EnvState).get_worker_demand p
      = e.get_worker_demand p - (if p = i then 1 else 0) := by
  unfold EnvState.get_worker_demand
  dsimp only
  by_cases hpi : p = i
  · subst hpi
    rw [Function.update_same, if_pos rfl]
    unfold EnvOp.n_remaining_tasks EnvOp.n_saturated_tasks
    dsimp only
    push_cast
    ring
  · rw [Function.update_noteq hpi, if_neg hpi]
    ring

/-- A task completion that leaves the operation incomplete lowers the demand
of the operation by one (in the modelled transition) and changes no other
demand. -/
theorem taskc_env_demand (e : EnvState) (i : OpId) (p : OpId) :
    ({ e with
        ops := Function.update e.ops i
          { e.ops i with
            n_completed_tasks := (e.ops i).n_completed_tasks + 1 } } :
        EnvState).get_worker_demand p
      = e.get_worker_demand p - (if p = i then 1 else 0) := by
  unfold EnvState.get_worker_demand
  dsimp only
  by_cases hpi : p = i
  · subst hpi
    rw [Function.update_same, if_pos rfl]
    unfold EnvOp.n_remaining_tasks EnvOp.n_saturated_tasks
    dsimp only
    push_cast
    ring
  · rw [Function.update_noteq hpi, if_neg hpi]
    ring

/-- The final task completion of an operation swaps a processing task for a
completed one, so the operation's saturated-task count and hence every demand
is unchanged. -/
theorem taskf_env_demand (e : EnvState) (i : OpId) (newF : OpId → Bool)
    (hpr : 1 ≤ (e.ops i).n_processing_tasks) (p : OpId) :
    ({ e with
        ops := Function.update e.ops i
          { e.ops i with
            n_completed_tasks := (e.ops i).n_completed_tasks + 1
            n_processing_tasks := (e.ops i).n_processing_tasks - 1 }
        frontier := newF } : EnvState).get_worker_demand p
      = e.get_worker_demand p := by
  unfold EnvState.get_worker_demand
  dsimp only
  by_cases hpi : p = i
  · subst hpi
    rw [Function.update_same]
    unfold EnvOp.n_remaining_tasks EnvOp.n_saturated_tasks
    dsimp only
    omega
  · rw [Function.update_noteq hpi]

/-- Every engine transition preserves the schedulable-demand invariant,
granted that the operations it newly inserts into the schedulable set have
positive demand in the target state (freshly unlocked frontier operations are
asserted unsaturated with just-registered zero counters, and the re-add
branch tests the demand positive before inserting).  Every demand-decreasing
site is immediately followed by the saturation check, which removes the
operation when its demand has dropped to zero. -/
theorem sched_step_demand_pos {e e2 : EnvState} (h : SchedStep e e2)
    (hinv : schedDemandPos e)
    (hnew : ∀ p ∈ e2.schedulable_ops, p ∉ e.schedulable_ops →
      0 < e2.get_worker_demand p) :
    schedDemandPos e2 := by
  intro p hp
  by_cases hpold : p ∈ e.schedulable_ops
  · cases h with
    | job_arrival j srcOps h1 h2 =>
        have hpsrc : p ∉ srcOps := fun hmem => (h2 p hmem).2 hpold
        unfold EnvState.get_worker_demand
        dsimp only
        obtain ⟨hc, hm⟩ := add_ops_fold_counters srcOps (e.wa.add_job j) p hpsrc
        rw [hc, hm]
        exact hinv p hpold
    | step_commit i nreq newOps hd hj ho ht hpos hsup hnw =>
        unfold EnvState.apply_commitment at hp ⊢
        dsimp only at hp ⊢
        split_ifs at hp ⊢ with hsat
        · have hpn : p ∉ newOps := fun hm => (hnw p hm).2.2 hpold
          have hp2 : p ∈ (e.schedulable_ops.erase i) ∪ newOps.toFinset := hp
          have hpi : p ≠ i := by
            rcases Finset.mem_union.mp hp2 with hh | hh
            · exact Finset.ne_of_mem_erase hh
            · exact absurd (List.mem_toFinset.mp hh) hpn
          show 0 < (({ e with
              wa := e.wa.add_commitment (e.adjust_n_workers nreq i) (opKeyOf i) } :
                EnvState).process_op_saturation i newOps).get_worker_demand p
          rw [processOpSaturation_demand _ i newOps p hpn,
            add_commitment_env_demand e i (e.adjust_n_workers nreq i) p,
            if_neg hpi]
          have hd2 := hinv p hpold
          omega
        · show 0 < ({ e with
              wa := e.wa.add_commitment (e.adjust_n_workers nreq i) (opKeyOf i) } :
                EnvState).get_worker_demand p
          by_cases hpi : p = i
          · subst hpi
            have hns : ¬ ({ e with
                wa := e.wa.add_commitment (e.adjust_n_workers nreq p) (opKeyOf p) } :
                  EnvState).is_op_saturated p := hsat
            unfold EnvState.is_op_saturated at hns
            exact not_le.mp hns
          · rw [add_commitment_env_demand e i (e.adjust_n_workers nreq i) p,
              if_neg hpi]
            have hd2 := hinv p hpold
            omega
    | fulfill_send_cross w i src newOps h1 h2 h3 h4 h5 =>
        unfold EnvState.saturation_checked at hp ⊢
        split_ifs at hp ⊢ with hsat
        · have hpn : p ∉ newOps := fun hm => (h5 p hm).2.2 hpold
          show 0 < (({ e with
              wa := (e.wa.remove_commitment w (opKeyOf i)).move_worker_to_pool w
                (opKeyOf i) true } : EnvState).process_op_saturation i
                  newOps).get_worker_demand p
          rw [processOpSaturation_demand _ i newOps p hpn,
            send_env_demand e w i src h2 p]
          exact hinv p hpold
        · show 0 < ({ e with
              wa := (e.wa.remove_commitment w (opKeyOf i)).move_worker_to_pool w
                (opKeyOf i) true } : EnvState).get_worker_demand p
          rw [send_env_demand e w i src h2 p]
          exact hinv p hpold
    | worker_arrival_park w i h1 h2 h3 h4 =>
        rw [readd_demand, park_env_demand e w i p]
        have hd2 := hinv p hpold
        split_ifs <;> omega
    | fulfill_same_job_park w i src h1 h2 h3 h4 h5 h6 h7 =>
        rw [readd_demand, fulfill_park_env_demand e w i src h2 p]
        have hd2 := hinv p hpold
        split_ifs <;> omega
    | work_on_op w i newOps h1 h2 =>
        unfold EnvState.saturation_checked at hp ⊢
        split_ifs at hp ⊢ with hsat
        · have hpn : p ∉ newOps := fun hm => (h2 p hm).2.2 hpold
          have hp2 : p ∈ (e.schedulable_ops.erase i) ∪ newOps.toFinset := hp
          have hpi : p ≠ i := by
            rcases Finset.mem_union.mp hp2 with hh | hh
            · exact Finset.ne_of_mem_erase hh
            · exact absurd (List.mem_toFinset.mp hh) hpn
          show 0 < (({ e with
              ops := Function.update e.ops i
                { e.ops i with
                  n_processing_tasks := (e.ops i).n_processing_tasks + 1 } } :
                EnvState).process_op_saturation i newOps).get_worker_demand p
          rw [processOpSaturation_demand _ i newOps p hpn, work_env_demand e i p,
            if_neg hpi]
          have hd2 := hinv p hpold
          omega
        · show 0 < ({ e with
              ops := Function.update e.ops i
                { e.ops i with
                  n_processing_tasks := (e.ops i).n_processing_tasks + 1 } } :
                EnvState).get_worker_demand p
          by_cases hpi : p = i
          · subst hpi
            have hns : ¬ ({ e with
                ops := Function.update e.ops p
                  { e.ops p with
                    n_processing_tasks := (e.ops p).n_processing_tasks + 1 } } :
                  EnvState).is_op_saturated p := fun hs => hsat ⟨hpold, hs⟩
            unfold EnvState.is_op_saturated at hns
            exact not_le.mp hns
          · rw [work_env_demand e i p, if_neg hpi]
            have hd2 := hinv p hpold
            omega
    | task_complete_continue w i newOps h1 h2 h3 h4 =>
        unfold EnvState.saturation_checked at hp ⊢
        split_ifs at hp ⊢ with hsat
        · have hpn : p ∉ newOps := fun hm => (h4 p hm).2.2 hpold
          have hp2 : p ∈ (e.schedulable_ops.erase i) ∪ newOps.toFinset := hp
          have hpi : p ≠ i := by
            rcases Finset.mem_union.mp hp2 with hh | hh
            · exact Finset.ne_of_mem_erase hh
            · exact absurd (List.mem_toFinset.mp hh) hpn
          show 0 < (({ e with
              ops := Function.update e.ops i
                { e.ops i with
                  n_completed_tasks := (e.ops i).n_completed_tasks + 1 } } :
                EnvState).process_op_saturation i newOps).get_worker_demand p
          rw [processOpSaturation_demand _ i newOps p hpn, taskc_env_demand e i p,
            if_neg hpi]
          have hd2 := hinv p hpold
          omega
        · show 0 < ({ e with
              ops := Function.update e.ops i
                { e.ops i with
                  n_completed_tasks := (e.ops i).n_completed_tasks + 1 } } :
                EnvState).get_worker_demand p
          by_cases hpi : p = i
          · subst hpi
            have hns : ¬ ({ e with
                ops := Function.update e.ops p
                  { e.ops p with
                    n_completed_tasks := (e.ops p).n_completed_tasks + 1 } } :
                  EnvState).is_op_saturated p := fun hs => hsat ⟨hpold, hs⟩
            unfold EnvState.is_op_saturated at hns
            exact not_le.mp hns
          · rw [taskc_env_demand e i p, if_neg hpi]
            have hd2 := hinv p hpold
            omega
    | task_complete_finish w i newF h1 h2 h3 h4 =>
        rw [taskf_env_demand e i newF h2 p]
        exact hinv p hpold
  · exact hnew p hp hpold

/-- Claim C5, amended: `adjust_n_workers` returns the requested count clamped
to the target's worker demand (`min(requested, remaining - moving -
committed)`); under the engine-maintained invariant that every schedulable
operation has strictly positive demand, the clamped value is strictly
positive for every call with a strictly positive requested count and a legal
(schedulable-and-unselected) target; and every engine transition preserves
that invariant, granted positive demand for the operations it newly inserts
into the schedulable set (the re-add branch tests exactly this, and freshly
unlocked frontier operations are asserted unsaturated with just-registered
zero counters).  A requested count of `0` clamps to `0`, so positivity fails
only for non-positive requests. -/
theorem claim_c5_clamp (e : EnvState) (nw : Int) (i : OpId) :
    (e.adjust_n_workers nw i
      = min nw ((e.ops i).n_remaining_tasks
          - e.wa.num_moving_to_op (opKeyOf i)
          - e.wa.num_commitments_to_op (opKeyOf i)))
    ∧ (schedDemandPos e → 0 < nw → i ∈ e.schedulable_ops \ e.selected_ops →
        0 < e.adjust_n_workers nw i)
    ∧ (∀ e2, SchedStep e e2 → schedDemandPos e →
        (∀ p ∈ e2.schedulable_ops, p ∉ e.schedulable_ops →
          0 < e2.get_worker_demand p) →
        schedDemandPos e2) :=
  ⟨rfl,
   fun hinv hnw hi => lt_min hnw (hinv i (Finset.mem_sdiff.mp hi).1),
   fun _ h hinv hnew => sched_step_demand_pos h hinv hnew⟩

/-- Witness for the amended claim C5 at a concrete state and a concrete
engine transition. -/
theorem claim_c5_clamp_witness :
    (c5EnvState.adjust_n_workers 2 (0, 0)
      = min 2 ((c5EnvState.ops (0, 0)).n_remaining_tasks
          - c5EnvState.wa.num_moving_to_op (opKeyOf (0, 0))
          - c5EnvState.wa.num_commitments_to_op (opKeyOf (0, 0))))
    ∧ 0 < c5EnvState.adjust_n_workers 2 (0, 0)
    ∧ schedDemandPos c5Post := by
  obtain ⟨h1, h2, h3⟩ := claim_c5_clamp c5EnvState 2 (0, 0)
  refine ⟨h1, h2 (by decide) (by decide) (by decide), ?_⟩
  refine h3 c5Post ?_ (by decide) (by decide)
  unfold c5Post
  exact SchedStep.step_commit c5EnvState (0, 0) 1 [] (by decide) (by decide)
    (by decide) (by decide) (by decide) (by decide) (by decide)

/-! Reward and reset-loop claims. -/

theorem foldl_sub_eq_sum (f : JobTimes → Rat) :
    ∀ (l : List JobTimes) (c : Rat),
      l.foldl (fun r j => r - f j) c = c - (l.map f).sum := by
  intro l
  induction l with
  | nil => intro c; simp
  | cons j t ih =>
      intro c
      simp only [List.foldl_cons, List.map_cons, List.sum_cons]
      rw [ih]
      ring

/-- Claim C7, counterexample: a job that arrives at time `0` and completes at
time `3` during a drain from `0` to `5` has already been removed from
`active_job_ids` when `_calculate_reward` runs, so the returned reward is
`0`, while the claim's sum over all jobs active during the drain contributes
the overlap `3` and yields `-3 * REWARD_SCALE ≠ 0`. -/
theorem claim_c7_counterexample :
    calculate_reward 0 5 (postDrainActive 5 [⟨0, 3⟩]) = 0 ∧
    (-(([⟨0, 3⟩] : List JobTimes).map
        (fun j => intervalOverlap 0 5 j.t_arrival j.t_completed)).sum)
      * REWARD_SCALE ≠ 0 := by
  have hlist : postDrainActive 5 [(⟨0, 3⟩ : JobTimes)] = [] := by
    norm_num [postDrainActive]
  constructor
  · rw [hlist]
    unfold calculate_reward
    rw [List.foldl_nil]
    exact zero_mul REWARD_SCALE
  · have hov : intervalOverlap 0 5 0 3 = 3 := by
      unfold intervalOverlap
      rw [min_eq_right (by norm_num : (3 : Rat) ≤ 5), max_self,
        max_eq_right (by norm_num : (0 : Rat) ≤ 3 - 0)]
      norm_num
    show (-(intervalOverlap 0 5 0 3 + 0)) * REWARD_SCALE ≠ 0
    rw [hov]
    unfold REWARD_SCALE
    norm_num

/-- Claim C7, amended: the reward returned for a drain from `prev` to `wall`
equals the negated sum of the overlaps of `[prev, wall]` with
`[t_arrival, t_completed]` over the jobs still active when the drain ends
(the post-drain `active_job_ids`), scaled by `REWARD_SCALE`; a job whose
completion event was processed during the drain has been removed from the
list before the reward is computed and contributes nothing.  The hypotheses
hold of every drain: the wall clock is nondecreasing and every job arrives
no later than the drain during which it is listed active. -/
theorem claim_c7_reward (prev wall : Rat) (jobs : List JobTimes)
    (hpw : prev ≤ wall)
    (hjobs : ∀ j ∈ jobs, j.t_arrival ≤ wall) :
    calculate_reward prev wall (postDrainActive wall jobs)
      = (-((postDrainActive wall jobs).map
          (fun j => intervalOverlap prev wall j.t_arrival j.t_completed)).sum)
        * REWARD_SCALE := by
  unfold calculate_reward
  rw [foldl_sub_eq_sum (fun j => min j.t_completed wall - max j.t_arrival prev)
    (postDrainActive wall jobs) 0]
  have hsum : (postDrainActive wall jobs).map
      (fun j => intervalOverlap prev wall j.t_arrival j.t_completed)
    = (postDrainActive wall jobs).map
        (fun j => min j.t_completed wall - max j.t_arrival prev) := by
    apply List.map_congr_left
    intro j hj
    have hj2 : j ∈ jobs.filter (fun j => decide (wall < j.t_completed)) := hj
    have hjm : j ∈ jobs := (List.mem_filter.mp hj2).1
    have hcw : wall < j.t_completed := by
      have hdec := (List.mem_filter.mp hj2).2
      simp only [decide_eq_true_eq] at hdec
      exact hdec
    have h1 : j.t_arrival ≤ wall := hjobs j hjm
    have h2 : prev ≤ j.t_completed := le_of_lt (lt_of_le_of_lt hpw hcw)
    have h3 : j.t_arrival ≤ j.t_completed := le_trans h1 (le_of_lt hcw)
    unfold intervalOverlap
    rw [max_eq_right
      (by
        have hmm : max prev j.t_arrival ≤ min wall j.t_completed :=
          max_le (le_min hpw h2) (le_min h1 h3)
        linarith)]
    rw [min_comm wall j.t_completed, max_comm prev j.t_arrival]
  rw [hsum]
  ring

/-- Witness for the amended claim C7 at a concrete drain: of the two listed
jobs, the one completing at time `2 < 3` has been dropped from the active
list and only the still-active job contributes its overlap. -/
theorem claim_c7_reward_witness :
    calculate_reward 0 3 (postDrainActive 3 [⟨1, 10⟩, ⟨0, 2⟩])
      = (-((postDrainActive 3 ([⟨1, 10⟩, ⟨0, 2⟩] : List JobTimes)).map
          (fun j => intervalOverlap 0 3 j.t_arrival j.t_completed)).sum)
        * REWARD_SCALE :=
  claim_c7_reward 0 3 [⟨1, 10⟩, ⟨0, 2⟩] (by norm_num)
    (by
      intro j hj
      rcases List.mem_cons.mp hj with h | h
      · subst h
        show (1 : Rat) ≤ 3
        norm_num
      · rw [List.mem_singleton] at h
        subst h
        show (0 : Rat) ≤ 3
        norm_num)

theorem resetDrain_stop (wall : Rat) (hw : wall ≠ 0) (l : List (Rat × Nat)) :
    resetDrain wall l = some (wall, [], l) := by
  cases l with
  | nil =>
      unfold resetDrain
      rw [if_neg hw]
  | cons p t =>
      obtain ⟨t0, e0⟩ := p
      unfold resetDrain
      rw [if_neg hw]

theorem resetDrain_split :
    ∀ zs : List (Rat × Nat), (∀ x ∈ zs, x.1 = 0) →
      (resetDrain 0 zs = none ∧
        ∀ (p : Rat × Nat) (rest : List (Rat × Nat)), p.1 ≠ 0 →
          resetDrain 0 (zs ++ p :: rest) = some (p.1, zs ++ [p], rest)) := by
  intro zs
  induction zs with
  | nil =>
      intro _
      constructor
      · unfold resetDrain
        rw [if_pos rfl]
      · intro p rest hp
        obtain ⟨t0, e0⟩ := p
        rw [List.nil_append]
        unfold resetDrain
        rw [if_pos rfl, resetDrain_stop t0 hp rest]
        rfl
  | cons z zs' ih =>
      intro hz
      obtain ⟨tz, ez⟩ := z
      have hz0 : tz = 0 := hz (tz, ez) (List.mem_cons_self _ _)
      have hz' : ∀ x ∈ zs', x.1 = 0 := fun x hx => hz x (List.mem_cons_of_mem _ hx)
      constructor
      · show resetDrain 0 ((tz, ez) :: zs') = none
        unfold resetDrain
        rw [if_pos rfl, hz0, (ih hz').1]
        rfl
      · intro p rest hp
        rw [List.cons_append]
        unfold resetDrain
        rw [if_pos rfl, hz0, (ih hz').2 p rest hp]
        rfl

theorem add_ops_fold_general :
    ∀ (l : List (Nat × Nat)) (t : WorkerAssignmentState),
      ((l.foldl (fun u p => u.add_op p.1 p.2) t).pools PoolKey.general
          = t.pools PoolKey.general) ∧
      ((l.foldl (fun u p => u.add_op p.1 p.2) t).num_commitments_from
          PoolKey.general = t.num_commitments_from PoolKey.general) ∧
      ((l.foldl (fun u p => u.add_op p.1 p.2) t).curr_source = t.curr_source) := by
  intro l
  induction l with
  | nil => intro t; exact ⟨rfl, rfl, rfl⟩
  | cons q rest ih =>
      intro t
      simp only [List.foldl_cons]
      obtain ⟨i1, i2, i3⟩ := ih (t.add_op q.1 q.2)
      refine ⟨?_, ?_, i3⟩
      · rw [i1]
        show Function.update t.pools (PoolKey.opPool q.1 q.2) ∅ PoolKey.general
          = t.pools PoolKey.general
        rw [Function.update_noteq (by intro hh; cases hh)]
      · rw [i2]
        show Function.update t.num_commitments_from (PoolKey.opPool q.1 q.2) 0
          PoolKey.general = t.num_commitments_from PoolKey.general
        rw [Function.update_noteq (by intro hh; cases hh)]

theorem arrivals_fold_source (n : Nat) :
    ∀ (arrivals : List (Nat × List (Nat × Nat))) (t : WorkerAssignmentState),
      t.curr_source = PoolKey.general →
      t.pools PoolKey.general = Finset.range n →
      t.num_commitments_from PoolKey.general = 0 →
      ((arrivals.foldl (fun u a => job_arrival_wa u a.1 a.2) t).curr_source
          = PoolKey.general ∧
        (arrivals.foldl (fun u a => job_arrival_wa u a.1 a.2) t).pools
          PoolKey.general = Finset.range n ∧
        (arrivals.foldl (fun u a => job_arrival_wa u a.1 a.2)
          t).num_commitments_from PoolKey.general = 0) := by
  intro arrivals
  induction arrivals with
  | nil => intro t h1 h2 h3; exact ⟨h1, h2, h3⟩
  | cons a rest ih =>
      intro t h1 h2 h3
      simp only [List.foldl_cons]
      have hj1 : (t.add_job a.1).pools PoolKey.general
          = t.pools PoolKey.general := by
        show Function.update t.pools (PoolKey.jobPool a.1) ∅ PoolKey.general
          = t.pools PoolKey.general
        rw [Function.update_noteq (by intro hh; cases hh)]
      have hj2 : (t.add_job a.1).num_commitments_from PoolKey.general
          = t.num_commitments_from PoolKey.general := by
        show Function.update t.num_commitments_from (PoolKey.jobPool a.1) 0
          PoolKey.general = t.num_commitments_from PoolKey.general
        rw [Function.update_noteq (by intro hh; cases hh)]
      obtain ⟨o1, o2, o3⟩ := add_ops_fold_general a.2 (t.add_job a.1)
      apply ih
      · unfold job_arrival_wa
        dsimp only
        split_ifs with hne
        · rfl
        · rw [o3]
          exact h1
      · unfold job_arrival_wa
        dsimp only
        split_ifs with hne
        · show (List.foldl (fun u p => u.add_op p.1 p.2) (t.add_job a.1)
            a.2).pools PoolKey.general = Finset.range n
          rw [o1, hj1]
          exact h2
        · rw [o1, hj1]
          exact h2
      · unfold job_arrival_wa
        dsimp only
        split_ifs with hne
        · show (List.foldl (fun u p => u.add_op p.1 p.2) (t.add_job a.1)
            a.2).num_commitments_from PoolKey.general = 0
          rw [o2, hj2]
          exact h3
        · rw [o2, hj2]
          exact h3

/-- Claim C8, amended: the reset loop processes all time-zero events and
additionally the single earliest event with nonzero time, setting the wall
clock to its time (the loop pops before re-testing the condition); if the
timeline holds no such later event the loop pops an empty timeline and
fails.  After the reset-time arrivals the general pool is the current worker
source and all workers are uncommitted. -/
theorem claim_c8_reset :
    (∀ zs : List (Rat × Nat), (∀ x ∈ zs, x.1 = 0) →
      (resetDrain 0 zs = none ∧
        ∀ (p : Rat × Nat) (rest : List (Rat × Nat)), p.1 ≠ 0 →
          resetDrain 0 (zs ++ p :: rest) = some (p.1, zs ++ [p], rest))) ∧
    (∀ (n : Nat) (arrivals : List (Nat × List (Nat × Nat))),
      (resetArrivalsApply n arrivals).curr_source = PoolKey.general ∧
      (resetArrivalsApply n arrivals).num_uncommitted_source_workers = n) := by
  constructor
  · exact resetDrain_split
  · intro n arrivals
    obtain ⟨s1, s2, s3⟩ := arrivals_fold_source n arrivals
      (WorkerAssignmentState.reset n) rfl
      (by
        show (if PoolKey.general = PoolKey.general then Finset.range n else ∅)
          = Finset.range n
        rw [if_pos rfl])
      rfl
    refine ⟨s1, ?_⟩
    unfold WorkerAssignmentState.num_uncommitted_source_workers
    unfold resetArrivalsApply
    rw [s1, s2, s3, Finset.card_range]
    ring

/-- Witness for the amended claim C8 at a concrete timeline and arrival
sequence. -/
theorem claim_c8_reset_witness :
    resetDrain 0 ([((0 : Rat), 7)] ++ ((3 : Rat), 8) :: [])
      = some (((3 : Rat), 8).1, [((0 : Rat), 7)] ++ [((3 : Rat), 8)], []) ∧
    (resetArrivalsApply 2 [(0, [(0, 0)])]).curr_source = PoolKey.general ∧
    (resetArrivalsApply 2 [(0, [(0, 0)])]).num_uncommitted_source_workers = 2 :=
  ⟨(claim_c8_reset.1 [((0 : Rat), 7)] (by decide)).2 ((3 : Rat), 8) []
      (by norm_num),
    (claim_c8_reset.2 2 [(0, [(0, 0)])]).1,
    (claim_c8_reset.2 2 [(0, [(0, 0)])]).2⟩

/-- Claim C8, counterexample: on the timeline `[(0, e0), (5, e1)]` the reset
loop processes the event at time `5 > 0` as well — the loop pops an event and
processes it before re-testing `wall_time == 0`. -/
theorem claim_c8_counterexample :
    resetDrain 0 [((0 : Rat), 0), ((5 : Rat), 1)]
      = some (5, [((0 : Rat), 0), ((5 : Rat), 1)], []) ∧
    ((5 : Rat), 1) ∈ [((0 : Rat), 0), ((5 : Rat), 1)] ∧ (0 : Rat) < 5 := by
  refine ⟨by decide, by decide, by decide⟩
